import Mathlib

/-!
Verification development for the GhostCoder semantic code-index core.

The JavaScript sources (syntax fixer, semantic/naming fixer, symbol graph
builder, embedding index, context retriever) are shallowly embedded below:
pure string-rewriting functions become Lean functions over `List Char` /
`String`, JavaScript regular expressions are interpreted by a small
backtracking matcher (`Reg`, `mrun`) transliterated node-by-node from each
regex literal, numbers are idealized as `ℚ` (similarity scores) or `ℝ`
(embedding vectors, which use `Math.sqrt`), and `try`/`catch` becomes
`Except`.
-/

namespace GhostCoder

/-! ## Basic character/string helpers mirroring JavaScript semantics -/

/-- Left curly brace character (written via its code point). -/
def lbrace : Char := Char.ofNat 123

/-- Right curly brace character (written via its code point). -/
def rbrace : Char := Char.ofNat 125

/-- JavaScript `\s` character class (ASCII fragment). -/
def wsChar (c : Char) : Bool :=
  c = ' ' || c = '\t' || c = '\n' || c = '\r' || c = Char.ofNat 11 || c = Char.ofNat 12

/-- JavaScript `\w` character class. -/
def wordChar (c : Char) : Bool :=
  (('a' ≤ c && c ≤ 'z') || ('A' ≤ c && c ≤ 'Z') || ('0' ≤ c && c ≤ '9') || c = '_')

/-- `String.prototype.trim` (strips leading and trailing whitespace). -/
def jsTrim (s : List Char) : List Char :=
  ((s.dropWhile wsChar).reverse.dropWhile wsChar).reverse

/-- `String.prototype.trimEnd`. -/
def jsTrimEnd (s : List Char) : List Char :=
  (s.reverse.dropWhile wsChar).reverse

/-- `content.split('\n')`. -/
def splitLines : List Char → List (List Char)
  | [] => [[]]
  | c :: rest =>
    let r := splitLines rest
    if c = '\n' then [] :: r
    else (c :: r.headI) :: r.tail

/-- `lines.join('\n')`. -/
def joinLines : List (List Char) → List Char
  | [] => []
  | [l] => l
  | l :: rest => l ++ '\n' :: joinLines rest

/-- `String.prototype.includes` (substring test). -/
def jsIncludes (hay needle : List Char) : Bool :=
  (List.range (hay.length + 1)).any fun i => needle.isPrefixOf (hay.drop i)

/-- `String.prototype.endsWith` (kernel-friendly, list-based). -/
def jsEndsWith (s suffix : String) : Bool :=
  suffix.toList.isSuffixOf s.toList

/-- `String.prototype.split` with a multi-character separator. -/
def splitOnStr (sep : List Char) (s : List Char) : List (List Char) :=
  if sep = [] then [s]
  else go s.length s
where
  go : Nat → List Char → List (List Char)
    | 0, s => [s]
    | Nat.succ fuel, s =>
      match findSep 0 s with
      | none => [s]
      | some i => s.take i :: go fuel (s.drop (i + sep.length))
  findSep (i : Nat) : List Char → Option Nat
    | [] => if sep = [] then some i else none
    | c :: rest =>
      if sep.isPrefixOf (c :: rest) then some i
      else findSep (i + 1) rest

/-- Count occurrences of a character (used for bracket balancing). -/
def countChar (c : Char) (s : List Char) : Nat :=
  s.count c

/-- `Char.toLower` matches JavaScript `toLowerCase` on ASCII. -/
def lowerStr (s : List Char) : List Char :=
  s.map Char.toLower

/-! ## A small backtracking regular-expression interpreter

JavaScript regexes used by the sources are transliterated into `Reg` values.
All quantifiers in those regexes range over single-character classes, which
the constructors below reflect.  `mrun` implements standard leftmost /
greedy / ordered-alternation backtracking in continuation-passing style, so
the interpreter agrees with the JavaScript engine on these patterns. -/

inductive Reg where
  /-- literal character sequence -/
  | lit (cs : List Char)
  /-- single character matching a class -/
  | cls (p : Char → Bool)
  /-- sequencing -/
  | seq (a b : Reg)
  /-- ordered alternation (left preferred) -/
  | alt (a b : Reg)
  /-- empty pattern -/
  | eps
  /-- greedy `p*` over a character class -/
  | star (p : Char → Bool)
  /-- greedy `p+` over a character class -/
  | plus (p : Char → Bool)
  /-- greedy `p?` over a character class -/
  | opt (p : Char → Bool)
  /-- lazy `p*?` over a character class -/
  | starLazy (p : Char → Bool)
  /-- zero-width assertion on (subject, position) -/
  | chk (f : List Char → Nat → Bool)
  /-- capture group `n` -/
  | grp (n : Nat) (a : Reg)

/-- Captured groups: group index paired with captured text (latest first). -/
abbrev Caps := List (Nat × List Char)

/-- Try a continuation at offsets `hi, hi-1, …, lo` (greedy order). -/
def tryDown (f : Nat → Option (Nat × Caps)) (lo : Nat) : Nat → Option (Nat × Caps)
  | 0 => if lo = 0 then f 0 else none
  | Nat.succ i =>
    if Nat.succ i < lo then none
    else
      match f (Nat.succ i) with
      | some r => some r
      | none => tryDown f lo i

/-- Try a continuation at offsets `start, start+1, …` (`count` attempts,
lazy order). -/
def tryUp (f : Nat → Option (Nat × Caps)) : Nat → Nat → Option (Nat × Caps)
  | 0, _ => none
  | Nat.succ count, start =>
    match f start with
    | some r => some r
    | none => tryUp f count (start + 1)

/-- Length of the maximal run of class `p` starting at `pos`. -/
def runLen (p : Char → Bool) (s : List Char) (pos : Nat) : Nat :=
  ((s.drop pos).takeWhile p).length

/-- Backtracking matcher: match `r` at `pos`, then call the continuation. -/
def mrun (r : Reg) (s : List Char) (pos : Nat) (caps : Caps)
    (k : Nat → Caps → Option (Nat × Caps)) : Option (Nat × Caps) :=
  match r with
  | .lit cs => if cs.isPrefixOf (s.drop pos) then k (pos + cs.length) caps else none
  | .cls p =>
    match s.get? pos with
    | some c => if p c then k (pos + 1) caps else none
    | none => none
  | .seq a b => mrun a s pos caps fun p1 c1 => mrun b s p1 c1 k
  | .alt a b =>
    match mrun a s pos caps k with
    | some r => some r
    | none => mrun b s pos caps k
  | .eps => k pos caps
  | .star p =>
    let m := runLen p s pos
    tryDown (fun i => k (pos + i) caps) 0 m
  | .plus p =>
    let m := runLen p s pos
    if m = 0 then none else tryDown (fun i => k (pos + i) caps) 1 m
  | .opt p =>
    match s.get? pos with
    | some c =>
      if p c then
        match k (pos + 1) caps with
        | some r => some r
        | none => k pos caps
      else k pos caps
    | none => k pos caps
  | .starLazy p =>
    let m := runLen p s pos
    tryUp (fun i => k (pos + i) caps) (m + 1) 0
  | .chk f => if f s pos then k pos caps else none
  | .grp n a => mrun a s pos caps fun p1 c1 => k p1 ((n, (s.drop pos).take (p1 - pos)) :: c1)

/-- Match `r` exactly at `pos`; yields the end position and captures. -/
def matchAt (r : Reg) (s : List Char) (pos : Nat) : Option (Nat × Caps) :=
  mrun r s pos [] fun p c => some (p, c)

/-- Leftmost match at or after `pos`: `(start, end, captures)`.  The fuel
`s.length + 1 - pos` covers every candidate start position. -/
def findFrom (r : Reg) (s : List Char) (pos : Nat) : Option (Nat × Nat × Caps) :=
  go (s.length + 1 - pos) pos
where
  go : Nat → Nat → Option (Nat × Nat × Caps)
    | 0, _ => none
    | Nat.succ fuel, pos =>
      if pos ≤ s.length then
        match matchAt r s pos with
        | some (e, caps) => some (pos, e, caps)
        | none => go fuel (pos + 1)
      else none

/-- `regex.test(s)`. -/
def testReg (r : Reg) (s : List Char) : Bool :=
  (findFrom r s 0).isSome

/-- Captured text of group `n` (empty if the group did not participate). -/
def capGet (caps : Caps) (n : Nat) : List Char :=
  match caps.find? (fun p => p.1 = n) with
  | some (_, t) => t
  | none => []

/-- `s.replace(regex-with-g-flag, repl)` where `repl` builds the
replacement text from the captures.  The fuel `s.length + 2` bounds the
number of scan steps: every match advances the position by at least one
character, so the fuel is never exhausted. -/
def replaceGlobal (r : Reg) (repl : Caps → List Char) (s : List Char) : List Char :=
  go (s.length + 2) 0
where
  go : Nat → Nat → List Char
    | 0, pos => s.drop pos
    | Nat.succ fuel, pos =>
      match findFrom r s pos with
      | none => s.drop pos
      | some (st, e, caps) =>
        if e ≤ st then
          -- zero-width match: emit through position st, then continue after it
          ((s.drop pos).take (st - pos)) ++ repl caps ++
            (match s.get? st with
             | some c => c :: go fuel (st + 1)
             | none => [])
        else ((s.drop pos).take (st - pos)) ++ repl caps ++ go fuel e

/-- Zero-width `$` of a multiline (`m`-flag) regex: end of string or before a
newline. -/
def lineEnd (s : List Char) (pos : Nat) : Bool :=
  pos = s.length || s.get? pos = some '\n'

/-- Zero-width `$` of a non-multiline regex: end of string. -/
def strEnd (s : List Char) (pos : Nat) : Bool :=
  pos = s.length

/-! ## Syntax Repair — `src/syntaxFixer.js` (`attemptSyntaxFix`, `smartFix`) -/

/-- One entry of `result.fixes` in `attemptSyntaxFix`. -/
inductive FixItem where
  | incompleteObjectDeclaration
  | missingSemicolon (line : Nat) (before after : String)
  | missingComma
  | incompleteType
  | missingClosingBrace (count : Nat)
  | missingClosingParen (count : Nat)
  | missingClosingBracket (count : Nat)
deriving Repr, DecidableEq

/-- Result object of `attemptSyntaxFix`. -/
structure SyntaxFixResult where
  fixed : Bool
  content : String
  errors : List String
  fixes : List FixItem
  shouldCommit : Bool
deriving Repr, DecidableEq

/-- `(const|let|var)`. -/
def regConstLetVar : Reg :=
  .alt (.lit "const".toList) (.alt (.lit "let".toList) (.lit "var".toList))

/-- Fix 1 pattern `/export\s+(const|let|var)\s+(\w+)\s*=\s*\n\s*async\s+(\w+)/g`. -/
def regFix1 : Reg :=
  .seq (.lit "export".toList) <| .seq (.plus wsChar) <|
  .seq (.grp 1 regConstLetVar) <| .seq (.plus wsChar) <|
  .seq (.grp 2 (.plus wordChar)) <| .seq (.star wsChar) <|
  .seq (.lit ['=']) <| .seq (.star wsChar) <| .seq (.lit ['\n']) <|
  .seq (.star wsChar) <| .seq (.lit "async".toList) <| .seq (.plus wsChar) <|
  .grp 3 (.plus wordChar)

/-- Replacement `'export $1 $2 = {\n  async $3'`. -/
def fix1Repl (caps : Caps) : List Char :=
  "export ".toList ++ capGet caps 1 ++ " ".toList ++ capGet caps 2 ++
    " = ".toList ++ [lbrace] ++ "\n  async ".toList ++ capGet caps 3

/-- Fix 3 pattern `/}\s*,?\s*\n\s*async\s+(\w+)/g`. -/
def regFix3a : Reg :=
  .seq (.lit [rbrace]) <| .seq (.star wsChar) <| .seq (.opt (fun c => c = ',')) <|
  .seq (.star wsChar) <| .seq (.lit ['\n']) <| .seq (.star wsChar) <|
  .seq (.lit "async".toList) <| .seq (.plus wsChar) <| .grp 1 (.plus wordChar)

/-- Replacement `'},\n  async $1'`. -/
def fix3aRepl (caps : Caps) : List Char :=
  [rbrace] ++ ",\n  async ".toList ++ capGet caps 1

/-- Fix 3 pattern `/(\w+:\s*[^,\n]+)\s*\n\s*(\w+:)/g`. -/
def regFix3b : Reg :=
  .seq (.grp 1 (.seq (.plus wordChar) <| .seq (.lit [':']) <| .seq (.star wsChar) <|
        .plus (fun c => !(c = ',' || c = '\n')))) <|
  .seq (.star wsChar) <| .seq (.lit ['\n']) <| .seq (.star wsChar) <|
  .grp 2 (.seq (.plus wordChar) (.lit [':']))

/-- Replacement `'$1,\n$2'`. -/
def fix3bRepl (caps : Caps) : List Char :=
  capGet caps 1 ++ ",\n".toList ++ capGet caps 2

/-- TypeScript-only pattern `/:\s*$/gm`. -/
def regFix4 : Reg :=
  .seq (.lit [':']) <| .seq (.star wsChar) <| .chk lineEnd

/-- Trailing-comma pattern `/,(\s*}\s*;?\s*)$/gm` (Fix 5 before balancing). -/
def regFix5a : Reg :=
  .seq (.lit [',']) <|
  .seq (.grp 1 (.seq (.star wsChar) <| .seq (.lit [rbrace]) <| .seq (.star wsChar) <|
        .seq (.opt (fun c => c = ';')) <| .star wsChar)) <|
  .chk lineEnd

/-- Pattern `/^export\s+(const|let|var)\s+\w+\s*=$/` used to skip lines. -/
def regExportAssign : Reg :=
  .seq (.lit "export".toList) <| .seq (.plus wsChar) <| .seq regConstLetVar <|
  .seq (.plus wsChar) <| .seq (.plus wordChar) <| .seq (.star wsChar) <|
  .seq (.lit ['=']) <| .chk strEnd

/-- Pattern `/^(import|export|return|throw|break|continue|type|interface)\s+/`. -/
def regNeedsSemi : Reg :=
  .seq (.alt (.lit "import".toList) <| .alt (.lit "export".toList) <|
        .alt (.lit "return".toList) <| .alt (.lit "throw".toList) <|
        .alt (.lit "break".toList) <| .alt (.lit "continue".toList) <|
        .alt (.lit "type".toList) (.lit "interface".toList)) <|
  .plus wsChar

/-- Pattern `/^(const|let|var)\s+\w+\s*=\s*.+[^=,]$/`. -/
def regCompleteStatement : Reg :=
  .seq regConstLetVar <| .seq (.plus wsChar) <| .seq (.plus wordChar) <|
  .seq (.star wsChar) <| .seq (.lit ['=']) <| .seq (.star wsChar) <|
  .seq (.plus (fun c => c ≠ '\n')) <| .seq (.cls (fun c => !(c = '=' || c = ','))) <|
  .chk strEnd

/-- Whether Fix 2 adds a semicolon to line `i` (see `attemptSyntaxFix`). -/
def addsSemicolon (lines : List (List Char)) (i : Nat) (line : List Char) : Bool :=
  let trimmed := jsTrim line
  if trimmed.isEmpty then false
  else if "//".toList.isPrefixOf trimmed then false
  else if "/*".toList.isPrefixOf trimmed then false
  else if "*".toList.isPrefixOf trimmed then false
  else if ([';', lbrace, rbrace, ']', ')'].any fun c => trimmed.getLast? = some c) then false
  else if (['=', ','].any fun c => trimmed.getLast? = some c) then false
  else if (matchAt regExportAssign trimmed 0).isSome then false
  else
    let nextLine := jsTrim ((lines.get? (i + 1)).getD [])
    if "async ".toList.isPrefixOf nextLine then false
    else if "function ".toList.isPrefixOf nextLine then false
    else
      let needsSemicolon := (matchAt regNeedsSemi trimmed 0).isSome
      let isCompleteStatement := (matchAt regCompleteStatement trimmed 0).isSome
      (needsSemicolon || isCompleteStatement) && trimmed.getLast? ≠ some ';'

/-- Fix 2: map the lines, adding semicolons, and collect the fix entries. -/
def fix2Process (c : List Char) : List (List Char) × List FixItem :=
  let lines := splitLines c
  let mapped := lines.enum.map fun p =>
    if addsSemicolon lines p.1 p.2 then p.2 ++ [';'] else p.2
  let fs := lines.enum.filterMap fun p =>
    if addsSemicolon lines p.1 p.2 then
      some (FixItem.missingSemicolon (p.1 + 1) (String.mk p.2) (String.mk (p.2 ++ [';'])))
    else none
  (mapped, fs)

/-- Fix 5 after balancing: `/,(\s*[}\]])/g → '$1'`, i.e. delete each comma
followed by optional whitespace and a closing `}` or `]`.  The match consumes
through the closing token, so scanning resumes after it; the consumed region
contains no further comma, hence this direct scanner produces the same string
as the JavaScript global replace. -/
def fix5bGo : Nat → List Char → List Char
  | _, [] => []
  | 0, s => s
  | Nat.succ fuel, c :: rest =>
    if c = ',' then
      let a := rest.takeWhile wsChar
      match (rest.drop a.length).head? with
      | some d =>
        if d = rbrace || d = ']' then a ++ d :: fix5bGo fuel (rest.drop (a.length + 1))
        else ',' :: fix5bGo fuel rest
      | none => ',' :: fix5bGo fuel rest
    else c :: fix5bGo fuel rest

/-- Entry point of the final comma-cleanup scanner (the fuel `s.length`
suffices since every step consumes at least one character). -/
def fix5b (s : List Char) : List Char :=
  fix5bGo s.length s

/-- Is this a JavaScript/TypeScript run (`['javascript','typescript'].includes`)? -/
def isJsTs (language : String) : Bool :=
  language = "javascript" || language = "typescript"

/-- Fixes 1–5 of `attemptSyntaxFix`, in source order, up to (but not
including) the bracket-balancing step: returns the rewritten content, the
`wasFixed` flag and the accumulated fix entries. -/
def preBalance (content : List Char) (language : String) : List Char × Bool × List FixItem :=
  -- Fix 1: incomplete object/function declarations
  let hit1 := isJsTs language && testReg regFix1 content
  let c1 := if hit1 then replaceGlobal regFix1 fix1Repl content else content
  let fixes1 : List FixItem := if hit1 then [.incompleteObjectDeclaration] else []
  -- Fix 2: missing semicolons (per line)
  let p2 := fix2Process c1
  let was2 := hit1 || decide (p2.2 ≠ [])
  let c2 := if isJsTs language then (if was2 then joinLines p2.1 else c1) else c1
  let fixes2 := if isJsTs language then p2.2 else []
  let wasAfter2 := if isJsTs language then was2 else hit1
  -- Fix 3: missing commas between object members
  let c3a := if isJsTs language then replaceGlobal regFix3a fix3aRepl c2 else c2
  let hit3 := isJsTs language && testReg regFix3b c3a
  let c3 := if hit3 then replaceGlobal regFix3b fix3bRepl c3a else c3a
  let fixes3 : List FixItem := if hit3 then [.missingComma] else []
  let wasAfter3 := wasAfter2 || hit3
  -- Fix (TypeScript only): incomplete type annotations
  let hit4 := language = "typescript" && testReg regFix4 c3
  let c4 := if hit4 then replaceGlobal regFix4 (fun _ => ": any".toList) c3 else c3
  let fixes4 : List FixItem := if hit4 then [.incompleteType] else []
  let wasAfter4 := wasAfter3 || hit4
  -- Fix 5 (first occurrence): strip a trailing comma before a closing brace
  let c5 := replaceGlobal regFix5a (fun caps => capGet caps 1) c4
  (c5, wasAfter4, fixes1 ++ fixes2 ++ fixes3 ++ fixes4)

/-- The condition guarding the "smart closing" branch of bracket balancing:
the last non-empty line of the trimmed content is exactly a closing brace,
optionally followed by a comma (`/^},?$/`). -/
def smartCloseCond (c : List Char) : Bool :=
  let lastNonEmptyLine := (splitLines (jsTrim c)).getLastD []
  lastNonEmptyLine ≠ [] &&
    (jsTrim lastNonEmptyLine = [rbrace] || jsTrim lastNonEmptyLine = [rbrace, ','])

/-- Content after the brace-balancing branch of Fix 6. -/
def balanceBraces (c : List Char) : List Char :=
  if countChar lbrace c > countChar rbrace c then
    if smartCloseCond c then jsTrimEnd c ++ '\n' :: [rbrace, ';']
    else c ++ '\n' :: List.replicate (countChar lbrace c - countChar rbrace c) rbrace
  else c

/-- The bracket-balancing step (Fix 6) and the final comma cleanup (Fix 5,
second occurrence) of `attemptSyntaxFix`.  All six counts are taken on the
incoming content before any append, exactly as in the source. -/
def balanceAndCleanup (c : List Char) : List Char × Bool × List FixItem :=
  let openBraces := countChar lbrace c
  let closeBraces := countChar rbrace c
  let openParens := countChar '(' c
  let closeParens := countChar ')' c
  let openBrackets := countChar '[' c
  let closeBrackets := countChar ']' c
  let cB := balanceBraces c
  let fB : List FixItem :=
    if openBraces > closeBraces then [.missingClosingBrace (openBraces - closeBraces)]
    else []
  let cP := if openParens > closeParens
            then cB ++ List.replicate (openParens - closeParens) ')' else cB
  let fP : List FixItem :=
    if openParens > closeParens then [.missingClosingParen (openParens - closeParens)]
    else []
  let cK := if openBrackets > closeBrackets
            then cP ++ List.replicate (openBrackets - closeBrackets) ']' else cP
  let fK : List FixItem :=
    if openBrackets > closeBrackets
    then [.missingClosingBracket (openBrackets - closeBrackets)] else []
  (fix5b cK, fB ≠ [] || fP ≠ [] || fK ≠ [], fB ++ fP ++ fK)

/-- The whole `try` body of `attemptSyntaxFix` (it cannot throw: every
operation in it is total in the model, mirroring that the JavaScript body
performs only regex and string operations). -/
def attemptSyntaxFixBody (content : String) (filePath language : String) :
    Except String SyntaxFixResult :=
  let _ := filePath
  let pre := preBalance content.toList language
  let post := balanceAndCleanup pre.1
  let wasFixed := pre.2.1 || post.2.1
  .ok { fixed := wasFixed
        content := String.mk post.1
        errors := []
        fixes := pre.2.2 ++ post.2.2
        shouldCommit := wasFixed }

/-- The `try … catch` shell of `attemptSyntaxFix`: on any internal error the
initial result object — `fixed:false`, the original content, the error
message appended — is returned. -/
def attemptSyntaxFixWith
    (body : String → String → String → Except String SyntaxFixResult)
    (content filePath language : String) : SyntaxFixResult :=
  match body content filePath language with
  | .ok r => r
  | .error e =>
    { fixed := false, content := content, errors := [e], fixes := [],
      shouldCommit := false }

/-- `attemptSyntaxFix(content, filePath, language)`. -/
def attemptSyntaxFix (content filePath : String) (language : String) : SyntaxFixResult :=
  attemptSyntaxFixWith attemptSyntaxFixBody content filePath language

/-- The language chosen by `smartFix` from the file extension. -/
def languageOf (filePath : String) : String :=
  if jsEndsWith filePath ".ts" || jsEndsWith filePath ".tsx"
  then "typescript" else "javascript"

/-- `smartFix(content, filePath)`: chooses the language from the file
extension and runs `attemptSyntaxFix` (its error-detection phase only logs). -/
def smartFix (content filePath : String) : SyntaxFixResult :=
  attemptSyntaxFix content filePath (languageOf filePath)

/-- The characters of the content returned by `smartFix` — the repaired
content of the Syntax Repair contract. -/
def repairedContent (content filePath : String) : List Char :=
  ((smartFix content filePath).content).toList

/-- The intermediate content right before the bracket-balancing step of
`attemptSyntaxFix`, as run by `smartFix`. -/
def preBalanced (content filePath : String) : List Char :=
  (preBalance content.toList (languageOf filePath)).1

/-! ## Naming Repair — `src/semanticFixer.js` -/

/-- All matches of a global regex, in `exec`-loop order:
`(start, end, captures)` triples. -/
def execAll (r : Reg) (s : List Char) : List (Nat × Nat × Caps) :=
  go (s.length + 2) 0
where
  go : Nat → Nat → List (Nat × Nat × Caps)
    | 0, _ => []
    | Nat.succ fuel, pos =>
      match findFrom r s pos with
      | none => []
      | some (st, e, caps) =>
        (st, e, caps) :: go fuel (if e ≤ st then st + 1 else e)

/-- One row-extension step of the Levenshtein dynamic program:
`prevD` is `matrix[j-1][i-1]`, `prevRest` the tail `matrix[j-1][i…]`,
`left` is `matrix[j][i-1]`. -/
def levRowGo (c2 : Char) : List Char → Nat → List Nat → Nat → List Nat
  | [], _, _, _ => []
  | c1 :: cs, prevD, prevRest, left =>
    let pI := prevRest.headD 0
    let cost := if c1 = c2 then 0 else 1
    let cur := Nat.min (left + 1) (Nat.min (pI + 1) (prevD + cost))
    cur :: levRowGo c2 cs pI prevRest.tail cur

/-- Levenshtein distance, computed exactly as the `stringSimilarity` matrix
in the source (rows indexed by `s2`, columns by `s1`). -/
def levenshtein (s1 s2 : List Char) : Nat :=
  let row0 := List.range (s1.length + 1)
  let lastRow := s2.foldl
    (fun prev c2 =>
      let first := prev.headD 0 + 1
      first :: levRowGo c2 s1 (prev.headD 0) prev.tail first)
    row0
  lastRow.getLastD 0

/-- `stringSimilarity(str1, str2)`: case-insensitive, edit-distance based,
idealized over `ℚ` (the source computes in floating point). -/
def stringSimilarity (str1 str2 : String) : ℚ :=
  let s1 := lowerStr str1.toList
  let s2 := lowerStr str2.toList
  if s1 = s2 then 1
  else
    let distance := levenshtein s1 s2
    let maxLen := Nat.max s1.length s2.length
    1 - (distance : ℚ) / (maxLen : ℚ)

/-- The comparison `stringSimilarity(s1, s2) < 0.5` in exact integer
arithmetic (`1 - d/L < 1/2  iff  L < 2*d` for `L > 0`; the early-return
equal case yields `1`, which is not below one half).  Equivalence with the
`ℚ`-valued `stringSimilarity` is proved in `simBelowHalf_iff`, keeping the
repair pipeline kernel-computable. -/
def simBelowHalf (s1 s2 : String) : Bool :=
  let l1 := lowerStr s1.toList
  let l2 := lowerStr s2.toList
  if l1 = l2 then false
  else Nat.max l1.length l2.length < 2 * levenshtein l1 l2

/-- The comparison `stringSimilarity(s1, s2) > 0.7` in exact integer
arithmetic (`1 - d/L > 7/10  iff  10*d < 3*L` for `L > 0`; the equal case
yields `1 > 0.7`).  Equivalence is proved in `simAboveSevenTenths_iff`. -/
def simAboveSevenTenths (s1 s2 : String) : Bool :=
  let l1 := lowerStr s1.toList
  let l2 := lowerStr s2.toList
  if l1 = l2 then true
  else 10 * levenshtein l1 l2 < 3 * Nat.max l1.length l2.length

/-- `path.basename(p)`. -/
def jsBasename (p : List Char) : List Char :=
  (splitOnStr ['/'] p).getLastD []

/-- `path.extname(p)`: suffix of the basename from its last dot, empty when
the dot is absent or leading. -/
def jsExtname (p : List Char) : List Char :=
  let b := jsBasename p
  let tailLen := (b.reverse.takeWhile (fun c => c ≠ '.')).length
  if tailLen < b.length then
    let dotPos := b.length - tailLen - 1
    if dotPos > 0 then b.drop dotPos else []
  else []

/-- `path.basename(p, ext)`. -/
def jsBasenameStrip (p ext : List Char) : List Char :=
  let b := jsBasename p
  if ext ≠ [] ∧ ext.isSuffixOf b then b.take (b.length - ext.length) else b

/-- Basename of `p` without its extension —
`path.basename(p, path.extname(p))`. -/
def baseNameNoExt (p : String) : List Char :=
  jsBasenameStrip p.toList (jsExtname p.toList)

/-- A file handed to the repair passes: `{path, content}`. -/
structure CodeFile where
  path : String
  content : String
deriving Repr, DecidableEq

/-- An export found by `detectExportNameTypos` (`{name, line, match}`). -/
structure ExportDecl where
  name : String
  line : Nat
  matchText : String
deriving Repr, DecidableEq

/-- One element of `findImportAttempts`. -/
structure ImportAttempt where
  filePath : String
  importedNames : List String
  importStatement : String
deriving Repr, DecidableEq

/-- One detected typo (`{line, original, suggested, reason, confidence,
importedIn}`). -/
structure TypoFlag where
  line : Nat
  original : String
  suggested : String
  reason : String
  confidence : String
  importedIn : String
deriving Repr, DecidableEq

/-- `(?:const|let|var|class|function|interface|type)`. -/
def regDeclKinds : Reg :=
  .alt (.lit "const".toList) <| .alt (.lit "let".toList) <|
  .alt (.lit "var".toList) <| .alt (.lit "class".toList) <|
  .alt (.lit "function".toList) <| .alt (.lit "interface".toList) <|
  .lit "type".toList

/-- `/export\s+(?:const|let|var|class|function|interface|type)\s+(\w+)/g`. -/
def regExportDecl : Reg :=
  .seq (.lit "export".toList) <| .seq (.plus wsChar) <| .seq regDeclKinds <|
  .seq (.plus wsChar) <| .grp 1 (.plus wordChar)

/-- `/import\s+(?:{([^}]+)}|\*\s+as\s+(\w+)|(\w+))\s+from\s+['"](.*?)['"]/g`. -/
def regImportStmt : Reg :=
  .seq (.lit "import".toList) <| .seq (.plus wsChar) <|
  .seq (.alt
         (.seq (.lit [lbrace]) <|
          .seq (.grp 1 (.plus (fun c => c ≠ rbrace))) <| .lit [rbrace])
         (.alt
           (.seq (.lit ['*']) <| .seq (.plus wsChar) <| .seq (.lit "as".toList) <|
            .seq (.plus wsChar) <| .grp 2 (.plus wordChar))
           (.grp 3 (.plus wordChar)))) <|
  .seq (.plus wsChar) <| .seq (.lit "from".toList) <| .seq (.plus wsChar) <|
  .seq (.cls (fun c => c = '\x27' || c = '"')) <|
  .seq (.grp 4 (.starLazy (fun c => c ≠ '\n'))) <|
  .cls (fun c => c = '\x27' || c = '"')

/-- `importedNamesStr.split(',').map(n => n.trim().split(' as ')[0].trim())`. -/
def parseImportedNames (str : List Char) : List String :=
  (splitOnStr [','] str).map fun n =>
    String.mk (jsTrim ((splitOnStr " as ".toList (jsTrim n)).headD []))

/-- `findImportAttempts(targetFilePath, allFiles)`: every import statement in
another file whose module specifier mentions the target file name. -/
def findImportAttempts (targetFilePath : String) (allFiles : List CodeFile) :
    List ImportAttempt :=
  let targetFileName := baseNameNoExt targetFilePath
  allFiles.flatMap fun file =>
    if file.path = targetFilePath then []
    else
      (execAll regImportStmt file.content.toList).filterMap fun m =>
        let caps := m.2.2
        let importedNamesStr :=
          if capGet caps 1 ≠ [] then capGet caps 1
          else if capGet caps 2 ≠ [] then capGet caps 2
          else capGet caps 3
        let importPath := capGet caps 4
        let isTargetFile := jsIncludes importPath targetFileName ||
          jsIncludes importPath (jsBasename targetFilePath.toList)
        if isTargetFile then
          some { filePath := file.path
                 importedNames :=
                   if importedNamesStr ≠ [] then parseImportedNames importedNamesStr
                   else []
                 importStatement :=
                   String.mk ((file.content.toList.drop m.1).take (m.2.1 - m.1)) }
        else none

/-- The high-confidence reason string of `detectExportNameTypos`. -/
def highReason (expName importedName fileName : String) : String :=
  "Export name \"" ++ expName ++ "\" doesn\x27t match import \"" ++ importedName ++
    "\" which is closer to file name \"" ++ fileName ++ "\""

/-- The medium-confidence reason string of `detectExportNameTypos`. -/
def mediumReason (expName fileName importedName : String) : String :=
  "Export name \"" ++ expName ++ "\" appears to be a typo. File name is \"" ++
    fileName ++ "\" and imported as \"" ++ importedName ++ "\""

/-- `confidenceOrder = {high: 3, medium: 2, low: 1}` (other keys are
`undefined`, and any comparison against `undefined` is false). -/
def confidenceOrder (c : String) : Option Nat :=
  if c = "high" then some 3 else if c = "medium" then some 2
  else if c = "low" then some 1 else none

/-- `confidenceOrder[a] > confidenceOrder[b]` with JavaScript `undefined`
semantics. -/
def confidenceGT (a b : Option Nat) : Bool :=
  match a, b with
  | some x, some y => x > y
  | _, _ => false

/-- The deduplication key: the string concatenation `original + suggested`. -/
def typoKey (t : TypoFlag) : String :=
  t.original ++ t.suggested

/-- One `typoMap.set`-style insertion of the deduplication loop: a new key is
appended, an existing key's value is overwritten (keeping its position) only
by a strictly higher confidence. -/
def dedupStep (m : List (String × TypoFlag)) (t : TypoFlag) :
    List (String × TypoFlag) :=
  let key := typoKey t
  match m.find? (fun p => p.1 = key) with
  | none => m ++ [(key, t)]
  | some ex =>
    if confidenceGT (confidenceOrder t.confidence) (confidenceOrder ex.2.confidence)
    then m.map fun p => if p.1 = key then (key, t) else p
    else m

/-- Deduplicate, keyed by `original + suggested`, keeping the first flag of
the highest confidence per key. -/
def dedupTypos (typos : List TypoFlag) : List TypoFlag :=
  (typos.foldl dedupStep []).map Prod.snd

/-- The export declarations `detectExportNameTypos` collects from a file via
its `exportPattern` `exec` loop. -/
def exportDeclsOf (content : String) : List ExportDecl :=
  let cs := content.toList
  (execAll regExportDecl cs).map fun m =>
    { name := String.mk (capGet m.2.2 1)
      line := countChar '\n' (cs.take m.1) + 1
      matchText := String.mk ((cs.drop m.1).take (m.2.1 - m.1)) }

/-- The export names of a file, as seen by Naming Repair. -/
def exportNamesOf (content : String) : List String :=
  (exportDeclsOf content).map (·.name)

/-- The high-confidence flag pushed when `similarity < 0.5` and
`importFilenameSim > 0.7`. -/
def mkHighFlag (exp : ExportDecl) (importedName fileName : String)
    (attempt : ImportAttempt) : TypoFlag :=
  { line := exp.line, original := exp.name, suggested := importedName
    reason := highReason exp.name importedName fileName
    confidence := "high", importedIn := attempt.filePath }

/-- The medium-confidence flag for short all-lowercase exports in a file
with a longer mixed-case name. -/
def mkMediumFlag (exp : ExportDecl) (importedName fileName : String)
    (attempt : ImportAttempt) : TypoFlag :=
  { line := exp.line, original := exp.name, suggested := fileName
    reason := mediumReason exp.name fileName importedName
    confidence := "medium", importedIn := attempt.filePath }

/-- The precondition of the medium-confidence rule: a short, all-lowercase
export name against a longer, mixed-case file name. -/
def mediumPrecond (exp : ExportDecl) (fileName : String) : Prop :=
  exp.name.toList.length ≤ 5 ∧
    exp.name.toList = lowerStr exp.name.toList ∧
    fileName.toList.length > 5 ∧
    fileName.toList ≠ lowerStr fileName.toList

instance (exp : ExportDecl) (fileName : String) :
    Decidable (mediumPrecond exp fileName) := by
  unfold mediumPrecond
  infer_instance

/-- The raw flags produced by the nested loops of `detectExportNameTypos`,
before deduplication (`fileNameSimilarity` in the source is computed for
logging only). -/
def typoCandidates (content filePath : String) (allFiles : List CodeFile) :
    List TypoFlag :=
  let fileName := String.mk (baseNameNoExt filePath)
  (exportDeclsOf content).flatMap fun exp =>
    (findImportAttempts filePath allFiles).flatMap fun attempt =>
      if attempt.importedNames.length > 0 then
        attempt.importedNames.flatMap fun importedName =>
          (if simBelowHalf exp.name importedName = true ∧
              simAboveSevenTenths importedName fileName = true then
            [mkHighFlag exp importedName fileName attempt]
          else []) ++
          (if mediumPrecond exp fileName then
            if simAboveSevenTenths importedName fileName = true then
              [mkMediumFlag exp importedName fileName attempt]
            else []
          else [])
      else []

/-- `detectExportNameTypos(content, filePath, allFiles)`. -/
def detectExportNameTypos (content filePath : String) (allFiles : List CodeFile) :
    List TypoFlag :=
  if exportDeclsOf content = [] then []
  else dedupTypos (typoCandidates content filePath allFiles)

/-- One applied naming fix (`{type: 'export-name-typo', …}`). -/
structure AppliedFix where
  type : String
  line : Nat
  original : String
  fixed : String
  reason : String
deriving Repr, DecidableEq

/-- Result of `applySemanticFixes`. -/
structure ApplyFixesResult where
  fixed : Bool
  content : String
  fixes : List AppliedFix
deriving Repr, DecidableEq

/-- The per-typo rewrite regex of `applySemanticFixes`:
`(export\s+(?:const|let|var|class|function|interface|type)\s+)ORIG\b`. -/
def regExportRename (original : String) : Reg :=
  .seq (.grp 1 (.seq (.lit "export".toList) <| .seq (.plus wsChar) <|
        .seq regDeclKinds <| .plus wsChar)) <|
  .seq (.lit original.toList) <|
  .chk fun s pos =>
    match s.get? pos with
    | some c => !wordChar c
    | none => true

/-- `applySemanticFixes(content, filePath, typos)`: rewrites high-confidence
typos (processed in descending line order). -/
def applySemanticFixes (content : String) (filePath : String)
    (typos : List TypoFlag) : ApplyFixesResult :=
  let _ := filePath
  let sortedTypos := typos.mergeSort fun a b => decide (b.line ≤ a.line)
  let result := sortedTypos.foldl
    (fun (st : List Char × List AppliedFix) t =>
      if t.confidence = "high" then
        let before := st.1
        let after := replaceGlobal (regExportRename t.original)
          (fun caps => capGet caps 1 ++ t.suggested.toList) before
        if after ≠ before then
          (after, st.2 ++ [{ type := "export-name-typo", line := t.line
                             original := t.original, fixed := t.suggested
                             reason := t.reason }])
        else (after, st.2)
      else st)
    (content.toList, [])
  { fixed := result.2.length > 0
    content := String.mk result.1
    fixes := result.2 }

/-- Result of `semanticFix` (the Naming Repair entry point). -/
structure SemanticFixResult where
  fixed : Bool
  content : String
  fixes : List AppliedFix
  shouldCommit : Bool
deriving Repr, DecidableEq

/-- `semanticFix(content, filePath, allFiles)`. -/
def semanticFix (content filePath : String) (allFiles : List CodeFile) :
    SemanticFixResult :=
  let typos := detectExportNameTypos content filePath allFiles
  if typos.length > 0 then
    let result := applySemanticFixes content filePath typos
    if result.fixed then
      { fixed := true, content := result.content, fixes := result.fixes
        shouldCommit := true }
    else
      { fixed := false, content := content, fixes := [], shouldCommit := false }
  else
    { fixed := false, content := content, fixes := [], shouldCommit := false }

/-! ## Embedding Index — `src/embeddingIndex.js`

Embedding vectors are idealized as `List ℝ` (the source works with
JavaScript floating-point arrays and `Math.sqrt`), so the functions below
are `noncomputable` exactly where the source computes with real square
roots or compares reals. -/

/-- `Except`-monad `map` over a list: the first failing element aborts the
whole traversal, as a thrown exception would inside `Array.prototype.map`. -/
def mapMExcept (f : α → Except ε β) : List α → Except ε (List β)
  | [] => .ok []
  | x :: xs => do
    let y ← f x
    let ys ← mapMExcept f xs
    pure (y :: ys)

/-- `cosineSimilarity(vec1, vec2)`: throws on length mismatch, returns `0`
when either norm is zero, otherwise the normalized dot product. -/
noncomputable def cosineSimilarity (vec1 vec2 : List ℝ) : Except String ℝ :=
  if vec1.length ≠ vec2.length then .error "Vectors must have the same length"
  else
    let dotProduct := ((vec1.zip vec2).map fun p => p.1 * p.2).sum
    let norm1 := Real.sqrt ((vec1.map fun x => x * x).sum)
    let norm2 := Real.sqrt ((vec2.map fun x => x * x).sum)
    if norm1 = 0 ∨ norm2 = 0 then .ok 0
    else .ok (dotProduct / (norm1 * norm2))

/-- A stored embedding record (the metadata fields the search touches). -/
structure EmbeddingRecord where
  id : String
  symbolName : String
  symbolType : String
  file : String
  line : Nat
  embedding : List ℝ

/-- A search result: the record's metadata, its similarity, and the raw
vector overwritten with `undefined` (`none`). -/
structure SearchResult where
  id : String
  symbolName : String
  symbolType : String
  file : String
  line : Nat
  similarity : ℝ
  embedding : Option (List ℝ)

/-- The per-record step of `semanticSearch`: spread the record, attach its
similarity, overwrite `embedding` with `undefined` (`none`). -/
noncomputable def searchMapStep (queryEmbedding : List ℝ)
    (item : EmbeddingRecord) : Except String SearchResult := do
  let similarity ← cosineSimilarity queryEmbedding item.embedding
  pure { id := item.id, symbolName := item.symbolName
         symbolType := item.symbolType, file := item.file, line := item.line
         similarity := similarity, embedding := none }

/-- `semanticSearch(index, query, topK)`, with the query already embedded by
the external embedding model (an outside collaborator): compute the
similarity against every stored vector, sort descending, take the top `K`,
strip the raw vectors. -/
noncomputable def semanticSearch (index : List EmbeddingRecord)
    (queryEmbedding : List ℝ) (topK : Nat) : Except String (List SearchResult) := do
  let results ← mapMExcept (searchMapStep queryEmbedding) index
  let sorted := results.mergeSort fun a b => decide (b.similarity ≤ a.similarity)
  pure (sorted.take topK)

/-- The on-disk index directory (`path.join(process.cwd(), 'data',
'indexes')`, relative to the working directory). -/
def INDEX_DIR : String := "data/indexes"

/-- `sanitizeRepoId`: every character outside `[a-zA-Z0-9-_]` becomes `_`. -/
def sanitizeRepoId (repoId : String) : String :=
  String.mk (repoId.toList.map fun c =>
    if ('a' ≤ c && c ≤ 'z') || ('A' ≤ c && c ≤ 'Z') || ('0' ≤ c && c ≤ '9') ||
        c = '-' || c = '_'
    then c else '_')

/-- The index file path for a repository id. -/
def indexPathOf (repoId : String) : String :=
  INDEX_DIR ++ "/" ++ sanitizeRepoId repoId ++ ".json"

/-- The file system, modelled as the set of existing paths. -/
abbrev FileSystem := List String

/-- `fs.access(path)`: succeeds iff the path exists. -/
def fsAccess (fs : FileSystem) (p : String) : Except String Unit :=
  if p ∈ fs then .ok () else .error "ENOENT"

/-- `fs.unlink(path)`: removes the path, failing with `ENOENT` if absent. -/
def fsUnlink (fs : FileSystem) (p : String) : Except String FileSystem :=
  if p ∈ fs then .ok (fs.filter fun q => q ≠ p) else .error "ENOENT"

/-- The inner `try`/`catch` of `deleteIndex`: access then unlink, treating
`ENOENT` as success (the index never existed, nothing to delete). -/
def deleteIndexAttempt (fs : FileSystem) (repoId : String) :
    Except String FileSystem :=
  let indexPath := indexPathOf repoId
  match (do fsAccess fs indexPath; fsUnlink fs indexPath :
      Except String FileSystem) with
  | .ok fs2 => .ok fs2
  | .error e => if e = "ENOENT" then .ok fs else .error e

/-- `deleteIndex(repoId)`: the outer `catch` swallows any remaining error
(logging a warning), so the call always completes. -/
def deleteIndex (fs : FileSystem) (repoId : String) : FileSystem :=
  match deleteIndexAttempt fs repoId with
  | .ok fs2 => fs2
  | .error _ => fs

/-- C9 scenario: the exporting file of the counterexample. -/
def c9UtilContent : String := "export const x = 1\nexport const xh = 2"

/-- C9 scenario: a file importing both names from `helperUtils`. -/
def c9MainContent : String :=
  "import \x7b helperUtils, elperUtils \x7d from \x27./helperUtils\x27"

/-- C9 scenario: the two files of the counterexample. -/
def c9Files : List CodeFile :=
  [{ path := "helperUtils.js", content := c9UtilContent },
   { path := "main.js", content := c9MainContent }]

/-- The invariant maintained by the deduplication fold: keys are distinct,
each key is its value's `original + suggested`, and every stored flag is
high- or medium-confidence. -/
def dedupInv (m : List (String × TypoFlag)) : Prop :=
  (m.map Prod.fst).Nodup ∧ (∀ p ∈ m, p.1 = typoKey p.2) ∧
    (∀ p ∈ m, p.2.confidence = "high" ∨ p.2.confidence = "medium")

/-- A key holds a high-confidence flag in the map. -/
def keyHighIn (m : List (String × TypoFlag)) (k : String) : Prop :=
  ∃ p ∈ m, p.1 = k ∧ p.2.confidence = "high"

/-! ## Context retriever (contextRetriever.js): formatContextForAI,
estimateTokens, createCompactContext, generateContextSummary.

JS numbers appearing as similarity scores are idealized as `ℚ`; the
`context` object is the record built by `retrieveContext`. In the source,
`createCompactContext` spreads the context and slices the arrays; the
per-file loop then rewrites `fullContent`/`snippet` on the (shared) file
objects. The model captures the returned value. -/

/-- A symbol entry of a file context (the mapped shape that the
buildFileContext helper produces). -/
structure CtxSymbol where
  name : String
  type : String
  line : Nat
  similarity : ℚ
  documentation : Option String
  signature : Option String
deriving DecidableEq

/-- A code snippet extracted by extractRelevantSnippets. -/
structure CtxSnippet where
  symbolName : String
  line : Nat
  code : String
deriving DecidableEq

/-- A file context (buildFileContext). `snippet` is `null` until snippets
are extracted, hence an `Option`. -/
structure FileCtx where
  path : String
  language : String
  relevantSymbols : List CtxSymbol
  imports : List String
  exports : List String
  snippet : Option (List CtxSnippet)
  fullContent : Option String
deriving DecidableEq

/-- A raw semantic-search hit stored in `context.relevantSymbols`. -/
structure CtxSearchResult where
  file : String
  symbolName : String
  symbolType : String
  line : Nat
  similarity : ℚ
deriving DecidableEq

/-- An entry of `context.callGraph` (buildCallGraph). -/
structure CallEdge where
  caller : String
  callee : String
  symbolName : String
deriving DecidableEq

/-- An entry of `context.dependencies` (buildDependencyGraph). JS field
`from` is a Lean keyword, rendered `fromPath`/`toPath`. -/
structure CtxDep where
  fromPath : String
  toPath : String
  type : String
  symbol : String
deriving DecidableEq

/-- An entry of `summary.topFiles`. -/
structure TopFile where
  path : String
  symbolCount : Nat
  language : String
deriving DecidableEq

/-- The summary produced by generateContextSummary. -/
structure CtxSummary where
  totalFiles : Nat
  totalSymbols : Nat
  languages : List String
  symbolTypes : List (String × Nat)
  topFiles : List TopFile
deriving DecidableEq

/-- The context record built by retrieveContext. -/
structure Context where
  relevantFiles : List FileCtx
  relevantSymbols : List CtxSearchResult
  callGraph : List CallEdge
  dependencies : List CtxDep
  summary : CtxSummary
deriving DecidableEq

/-- JS `Set` iteration order: first occurrences, in insertion order. -/
def dedupList (l : List String) : List String :=
  l.foldl (fun acc x => if x ∈ acc then acc else acc ++ [x]) []

/-- The counter upsert in generateContextSummary, an insertion-ordered
object acting as a multiset of symbol types. -/
def bumpType (m : List (String × Nat)) (ty : String) : List (String × Nat) :=
  if m.any (fun kv => kv.1 = ty) then
    m.map (fun kv => if kv.1 = ty then (kv.1, kv.2 + 1) else kv)
  else m ++ [(ty, 1)]

/-- generateContextSummary (contextRetriever.js): statistics over the
relevant files plus the top five files. -/
def generateContextSummary (relevantFiles : List FileCtx)
    (relevantSymbols : List CtxSearchResult) : CtxSummary :=
  { totalFiles := relevantFiles.length,
    totalSymbols := relevantSymbols.length,
    languages := dedupList (relevantFiles.map (fun f => f.language)),
    symbolTypes := relevantFiles.foldl
      (fun m f => f.relevantSymbols.foldl (fun m2 s => bumpType m2 s.type) m) [],
    topFiles := (relevantFiles.take 5).map (fun f =>
      { path := f.path, symbolCount := f.relevantSymbols.length,
        language := f.language }) }

/-- `toFixed 1` on an idealized (rational) number: round to one decimal
place, half away from zero. -/
def toFixed1 (q : ℚ) : String :=
  if q < 0 then
    let n := (Int.floor (-q * 10 + 1/2)).toNat
    "-" ++ toString (n / 10) ++ "." ++ toString (n % 10)
  else
    let n := (Int.floor (q * 10 + 1/2)).toNat
    toString (n / 10) ++ "." ++ toString (n % 10)

/-- `JSON.stringify(obj, null, 2)` for a flat string-to-number object. -/
def jsonStringify2 (m : List (String × Nat)) : String :=
  if m = [] then "\x7b\x7d"
  else "\x7b\n" ++ String.intercalate ",\n"
    (m.map (fun kv => "  \x22" ++ kv.1 ++ "\x22: " ++ toString kv.2)) ++ "\n\x7d"

/-- JS truthiness of an optional string: undefined and the empty string
are falsy. -/
def strTruthy : Option String → Bool
  | some s => s ≠ ""
  | none => false

/-- The lines pushed for one symbol in the FILE DETAILS section. -/
def symbolLines (s : CtxSymbol) : List String :=
  ["  - " ++ s.name ++ " (" ++ s.type ++ ") at line " ++ toString s.line]
  ++ (if strTruthy s.documentation then
        ["    Doc: " ++ s.documentation.getD ""] else [])
  ++ (if strTruthy s.signature then
        ["    Signature: " ++ s.signature.getD ""] else [])
  ++ ["    Relevance: " ++ toFixed1 (s.similarity * 100) ++ "%"]

/-- The lines pushed for one code snippet. -/
def snippetLines (sn : CtxSnippet) : List String :=
  ["\n  Symbol: " ++ sn.symbolName ++ " (line " ++ toString sn.line ++ ")",
   "  \x60\x60\x60", sn.code, "  \x60\x60\x60"]

/-- The lines pushed for one file in the FILE DETAILS section. -/
def fileLines (f : FileCtx) : List String :=
  ["\n--- File: " ++ f.path ++ " (" ++ f.language ++ ") ---"]
  ++ (if f.imports.length > 0 then
        ["Imports: " ++ String.intercalate ", " f.imports] else [])
  ++ (if f.exports.length > 0 then
        ["Exports: " ++ String.intercalate ", " f.exports] else [])
  ++ ["\nRelevant Symbols:"]
  ++ List.flatten ((f.relevantSymbols.take 10).map symbolLines)
  ++ (match f.snippet with
      | some sns =>
        if sns.length > 0 then
          ["\nCode Snippets:"] ++ List.flatten ((sns.take 3).map snippetLines)
        else []
      | none => [])

/-- The line pushed for one `summary.topFiles` entry. -/
def topFileLine (tf : TopFile) : String :=
  "- " ++ tf.path ++ " (" ++ tf.language ++ ", " ++ toString tf.symbolCount
    ++ " relevant symbols)"

/-- The line pushed for one dependency. -/
def depLine (d : CtxDep) : String :=
  d.fromPath ++ " -> " ++ d.toPath ++ " (" ++ d.symbol ++ ")"

/-- formatContextForAI (contextRetriever.js): renders the context as the
newline-joined section list. -/
def formatContextForAI (ctx : Context) : String :=
  let sections :=
    ["=== CODE CONTEXT SUMMARY ===",
     "Total Files: " ++ toString ctx.summary.totalFiles,
     "Total Symbols: " ++ toString ctx.summary.totalSymbols,
     "Languages: " ++ String.intercalate ", " ctx.summary.languages,
     "Symbol Types: " ++ jsonStringify2 ctx.summary.symbolTypes,
     "",
     "=== TOP RELEVANT FILES ==="]
    ++ ctx.summary.topFiles.map topFileLine
    ++ ["", "=== FILE DETAILS ==="]
    ++ List.flatten (ctx.relevantFiles.map fileLines)
    ++ (if ctx.dependencies.length > 0 then
          ["\n=== DEPENDENCIES ==="] ++ (ctx.dependencies.take 20).map depLine
        else [])
  String.intercalate "\n" sections

/-- estimateTokens: the ceiling of a quarter of the character count. -/
def estimateTokens (text : String) : Nat :=
  (text.length + 3) / 4

/-- The per-file rewrite of createCompactContext, which nulls the full
content and keeps at most two snippets when a snippet list is present. -/
def compactFile (f : FileCtx) : FileCtx :=
  { f with fullContent := none,
           snippet := f.snippet.map (fun sns => sns.take 2) }

/-- createCompactContext (contextRetriever.js): return the context
unchanged when the rendered estimate fits the budget, otherwise slice the
arrays and strip full contents. -/
def createCompactContext (ctx : Context) (maxTokens : Nat) : Context :=
  let estimated := estimateTokens (formatContextForAI ctx)
  if estimated ≤ maxTokens then ctx
  else
    { ctx with
      relevantFiles := (ctx.relevantFiles.take 5).map compactFile,
      relevantSymbols := ctx.relevantSymbols.take 20,
      callGraph := ctx.callGraph.take 10,
      dependencies := ctx.dependencies.take 10 }

/-- The caps claim C4 asserts of the output (the call-graph entries, also
sliced to 10, are included for completeness). -/
def withinCompactionCaps (ctx : Context) : Prop :=
  ctx.relevantFiles.length ≤ 5 ∧ ctx.relevantSymbols.length ≤ 20 ∧
  ctx.callGraph.length ≤ 10 ∧ ctx.dependencies.length ≤ 10 ∧
  ∀ f ∈ ctx.relevantFiles, f.fullContent = none ∧
    (match f.snippet with
     | some sns => sns.length ≤ 2
     | none => True)

/-- One empty relevant file for the C4 counterexample context. -/
def c4File (p : String) : FileCtx :=
  { path := p, language := "javascript", relevantSymbols := [],
    imports := [], exports := [], snippet := some [], fullContent := none }

/-- Six relevant files: more than the five-file cap. -/
def c4Files : List FileCtx :=
  [c4File "a.js", c4File "b.js", c4File "c.js",
   c4File "d.js", c4File "e.js", c4File "f.js"]

/-- The C4 counterexample context: six files, summary as
generateContextSummary computes it. -/
def c4Ctx : Context :=
  { relevantFiles := c4Files, relevantSymbols := [], callGraph := [],
    dependencies := [], summary := generateContextSummary c4Files [] }

/-! ## Symbol graph builder (symbolGraph.js): buildSymbolGraph,
analyzeFile, parsePython, extractGenericSymbols, buildEdges,
detectLanguage, serializeGraph.

The JavaScript/TypeScript parsers call the external Babel/TypeScript
parser packages, which are not part of this repository; they are taken
as parameters (`jsParse`, `tsParse`) of type `String → String →
ParseResult`.  The Python and generic extractors are regex-based repo
code and are modelled concretely.  `getAllCodeFiles` reads the
filesystem; the model follows its catch branch, where the analyzed
files themselves serve as the semantic context (this is also the
aliasing the code relies on: phase 1 mutates the shared file objects).
`serializeGraph` converts the two Maps with `Object.fromEntries`; on
this model maps are insertion-ordered association lists with unique
keys, so serialization returns the entry lists as they stand, and only
the never-written `imports`/`calls` maps and the wall-clock `buildTime`
field are omitted. -/

/-- A parsed symbol.  Fields that only some parsers set default to
`none`/`[]` (JS `undefined`).  JS field `from` is a Lean keyword,
rendered `fromMod`; `extends` is likewise rendered `extendsName`. -/
structure Sym where
  name : String
  type : String
  line : Nat
  fromMod : Option String := none
  params : List String := []
  documentation : Option String := none
  extendsName : Option String := none
deriving Repr, DecidableEq

/-- The fixes list carried by a tracked fix: semantic fixes carry
`AppliedFix` entries, syntactic ones `FixItem` entries. -/
inductive FixList where
  | sem (l : List AppliedFix)
  | syn (l : List FixItem)
deriving Repr, DecidableEq

/-- `fixApplied` is either a semantic-fix result or a syntax-fix
result; JS reads `.content`, `.shouldCommit` and `.fixes` off both. -/
inductive FixSource where
  | sem (r : SemanticFixResult)
  | syn (r : SyntaxFixResult)
deriving Repr, DecidableEq

/-- The `.content` field of a fix object. -/
def FixSource.contentOf : FixSource → String
  | .sem r => r.content
  | .syn r => r.content

/-- The `.shouldCommit` field of a fix object. -/
def FixSource.shouldCommitOf : FixSource → Bool
  | .sem r => r.shouldCommit
  | .syn r => r.shouldCommit

/-- The `.fixes` field of a fix object. -/
def FixSource.fixesOf : FixSource → FixList
  | .sem r => .sem r.fixes
  | .syn r => .syn r.fixes

/-- What a parser returns: symbols plus an optional applied fix. -/
structure ParseResult where
  symbols : List Sym
  fixApplied : Option FixSource

/-- A symbol as stored in `graph.symbols`: the parsed symbol spread
with its `id` and `file`. -/
structure GraphSymbol where
  name : String
  type : String
  line : Nat
  fromMod : Option String
  params : List String
  documentation : Option String
  extendsName : Option String
  id : String
  file : String
deriving Repr, DecidableEq

/-- `{ ...symbol, id, file }` as pushed into `graph.symbols`. -/
def toGraphSymbol (s : Sym) (filePath : String) : GraphSymbol :=
  { name := s.name, type := s.type, line := s.line, fromMod := s.fromMod,
    params := s.params, documentation := s.documentation,
    extendsName := s.extendsName,
    id := filePath ++ "::" ++ s.name, file := filePath }

/-- A `graph.files` record. -/
structure FileRecord where
  path : String
  language : String
  symbolCount : Nat
  size : Nat
  imports : List Sym
  exports : List Sym
deriving Repr, DecidableEq

/-- A `graph.edges` entry (`from`/`to` rendered `fromId`/`toId`). -/
structure Edge where
  fromId : String
  toId : String
  type : String
deriving Repr, DecidableEq

/-- An entry of the tracked-fixes array of the graph. -/
structure SyntaxFixEntry where
  filePath : String
  originalContent : String
  fixedContent : String
  fixes : FixList
deriving Repr, DecidableEq

/-- `graph.metadata` (`buildTime`, a wall-clock stamp, omitted). -/
structure GraphMeta where
  totalSymbols : Nat
  totalFiles : Nat
deriving Repr, DecidableEq

/-- The symbol graph.  `trackedFixes` models the JS array holding the
fixes to be committed; the never-written `imports` and `calls` maps are
omitted. -/
structure Graph where
  symbols : List (String × GraphSymbol)
  files : List (String × FileRecord)
  edges : List Edge
  trackedFixes : List SyntaxFixEntry
  metadata : GraphMeta
deriving Repr, DecidableEq

/-- JS `Map.set`: update in place if the key exists, else append. -/
def mapSet (m : List (String × α)) (k : String) (v : α) :
    List (String × α) :=
  if m.any (fun kv => kv.1 = k) then
    m.map (fun kv => if kv.1 = k then (k, v) else kv)
  else m ++ [(k, v)]

/-- JS `Map.get` (`none` for `undefined`). -/
def mapLookup (m : List (String × α)) (k : String) : Option α :=
  (m.find? (fun kv => kv.1 = k)).map (fun kv => kv.2)

/-- The character class of JS `.` (anything but a line terminator). -/
def jsDot (c : Char) : Bool :=
  !(c == Char.ofNat 10 || c == Char.ofNat 13 ||
    c == Char.ofNat 0x2028 || c == Char.ofNat 0x2029)

/-- The class of JS `\S`. -/
def notWs (c : Char) : Bool := !wsChar c

/-- Python import line: anchored
`(?:from\s+(\S+)\s+)?import\s+(.+)` (the optional group unrolled into
an ordered alternation). -/
def regPyImport : Reg :=
  .seq (.alt (.seq (.lit "from".toList)
         (.seq (.plus wsChar) (.seq (.grp 1 (.plus notWs)) (.plus wsChar))))
        .eps)
    (.seq (.lit "import".toList) (.seq (.plus wsChar) (.grp 2 (.plus jsDot))))

/-- Python function definition: anchored `def\s+(\w+)\s*\((.*?)\)`. -/
def regPyDef : Reg :=
  .seq (.lit "def".toList) (.seq (.plus wsChar)
    (.seq (.grp 1 (.plus wordChar))
      (.seq (.star wsChar)
        (.seq (.lit ['(']) (.seq (.grp 2 (.starLazy jsDot)) (.lit [')']))))))

/-- Python class definition: anchored `class\s+(\w+)(?:\(.*?\))?:`
(the optional parenthesized part unrolled into an alternation). -/
def regPyClass : Reg :=
  .seq (.lit "class".toList) (.seq (.plus wsChar)
    (.seq (.grp 1 (.plus wordChar))
      (.alt (.seq (.lit ['(']) (.seq (.starLazy jsDot) (.lit [')', ':'])))
        (.lit [':']))))

/-- The three characters of a Python triple double quote. -/
def tripleQuoteD : List Char :=
  [Char.ofNat 34, Char.ofNat 34, Char.ofNat 34]

/-- The three characters of a Python triple single quote. -/
def tripleQuoteS : List Char :=
  [Char.ofNat 39, Char.ofNat 39, Char.ofNat 39]

/-- `line.substring(0, line.indexOf(quote))`: the prefix before the
first occurrence of `needle`. -/
def takeBeforeOcc (needle : List Char) : List Char → List Char
  | [] => []
  | c :: rest =>
    if needle.isPrefixOf (c :: rest) then []
    else c :: takeBeforeOcc needle rest

/-- The continuation loop of extractPythonDocstring over the at most
eighteen lines after the opener. -/
def pyDocLoop (quote : List Char) : List (List Char) → List Char → List Char
  | [], acc => acc
  | l :: rest, acc =>
    if jsIncludes l quote then acc ++ ' ' :: takeBeforeOcc quote l
    else pyDocLoop quote rest (acc ++ ' ' :: jsTrim l)

/-- extractPythonDocstring (symbolGraph.js). -/
def extractPythonDocstring (lines : List (List Char)) (startIndex : Nat) :
    Option String :=
  if startIndex + 1 < lines.length then
    let nextLine := jsTrim (lines.getD (startIndex + 1) [])
    if tripleQuoteD.isPrefixOf nextLine ∨ tripleQuoteS.isPrefixOf nextLine then
      let quote := nextLine.take 3
      let docstring := nextLine.drop 3
      if quote.isSuffixOf docstring then
        some (String.mk (jsTrim (docstring.take (docstring.length - 3))))
      else
        some (String.mk (jsTrim
          (pyDocLoop quote ((lines.drop (startIndex + 2)).take 18) docstring)))
    else none
  else none

/-- The import symbols a Python line contributes. -/
def pyImportSymbols (line : List Char) (lineNum : Nat) : List Sym :=
  match matchAt regPyImport line 0 with
  | none => []
  | some (_, caps) =>
    ((splitOnStr [','] (capGet caps 2)).map
      (fun s => (splitOnStr " as ".toList (jsTrim s)).headD [])).map
      (fun n =>
        { name := String.mk n, type := "import",
          fromMod := if capGet caps 1 = [] then none
                     else some (String.mk (capGet caps 1)),
          line := lineNum })

/-- The function symbol a Python line contributes. -/
def pyFuncSymbols (lines : List (List Char)) (i : Nat) (line : List Char)
    (lineNum : Nat) : List Sym :=
  match matchAt regPyDef line 0 with
  | none => []
  | some (_, caps) =>
    [{ name := String.mk (capGet caps 1), type := "function",
       params := (((splitOnStr [','] (capGet caps 2)).map
           (fun p => jsTrim ((splitOnStr ['='] (jsTrim p)).headD []))).filter
           (fun p => p ≠ [])).map String.mk,
       line := lineNum, documentation := extractPythonDocstring lines i }]

/-- The class symbol a Python line contributes. -/
def pyClassSymbols (lines : List (List Char)) (i : Nat) (line : List Char)
    (lineNum : Nat) : List Sym :=
  match matchAt regPyClass line 0 with
  | none => []
  | some (_, caps) =>
    [{ name := String.mk (capGet caps 1), type := "class",
       line := lineNum, documentation := extractPythonDocstring lines i }]

/-- parsePython (symbolGraph.js): line-wise regex extraction;
`fixApplied` is always `null`. -/
def parsePython (content : String) : ParseResult :=
  let lines := splitLines content.toList
  { symbols := (lines.enum.map (fun p =>
      pyImportSymbols p.2 (p.1 + 1) ++ pyFuncSymbols lines p.1 p.2 (p.1 + 1)
        ++ pyClassSymbols lines p.1 p.2 (p.1 + 1))).flatten,
    fixApplied := none }

/-- The class of `[:=]`. -/
def colonEq (c : Char) : Bool := c == ':' || c == '='

/-- The class of `[^)]`. -/
def notRParen (c : Char) : Bool := !(c == ')')

/-- The five generic function patterns of extractGenericSymbols. -/
def genericFuncPats : List Reg :=
  [.seq (.lit "function".toList) (.seq (.plus wsChar)
     (.seq (.grp 1 (.plus wordChar)) (.seq (.star wsChar) (.lit ['('])))),
   .seq (.lit "def".toList) (.seq (.plus wsChar)
     (.seq (.grp 1 (.plus wordChar)) (.seq (.star wsChar) (.lit ['('])))),
   .seq (.grp 1 (.plus wordChar)) (.seq (.star wsChar)
     (.seq (.cls colonEq) (.seq (.star wsChar)
       (.seq (.lit "function".toList) (.seq (.star wsChar) (.lit ['('])))))),
   .seq (.grp 1 (.plus wordChar)) (.seq (.star wsChar)
     (.seq (.cls colonEq) (.seq (.star wsChar)
       (.seq (.lit ['(']) (.seq (.star notRParen)
         (.seq (.lit [')']) (.seq (.star wsChar) (.lit "=>".toList)))))))),
   .seq (.lit "const".toList) (.seq (.plus wsChar)
     (.seq (.grp 1 (.plus wordChar)) (.seq (.star wsChar)
       (.seq (.lit ['=']) (.seq (.star wsChar)
         (.seq (.lit ['(']) (.seq (.star notRParen)
           (.seq (.lit [')']) (.seq (.star wsChar) (.lit "=>".toList))))))))))]

/-- The three generic class patterns of extractGenericSymbols. -/
def genericClassPats : List Reg :=
  [.seq (.lit "class".toList) (.seq (.plus wsChar) (.grp 1 (.plus wordChar))),
   .seq (.lit "interface".toList)
     (.seq (.plus wsChar) (.grp 1 (.plus wordChar))),
   .seq (.lit "type".toList) (.seq (.plus wsChar)
     (.seq (.grp 1 (.plus wordChar)) (.seq (.star wsChar) (.lit ['=']))))]

/-- First pattern of the list that matches the line (the inner
`for-break`), returning its captures. -/
def firstPatCaps : List Reg → List Char → Option Caps
  | [], _ => none
  | r :: rest, line =>
    match findFrom r line 0 with
    | some rm => some rm.2.2
    | none => firstPatCaps rest line

/-- extractGenericSymbols (symbolGraph.js): regex fallback for
unsupported languages. -/
def extractGenericSymbols (content : String) : List Sym :=
  let lines := splitLines content.toList
  (lines.enum.map (fun p =>
    (match firstPatCaps genericFuncPats p.2 with
     | some caps =>
       [{ name := String.mk (capGet caps 1), type := "function",
          line := p.1 + 1, documentation := none }]
     | none => [])
    ++ (match firstPatCaps genericClassPats p.2 with
        | some caps =>
          [{ name := String.mk (capGet caps 1), type := "class",
             line := p.1 + 1, documentation := none }]
        | none => []))).flatten

/-- detectLanguage (symbolGraph.js). -/
def detectLanguage (ext : String) : String :=
  if ext = ".js" ∨ ext = ".jsx" ∨ ext = ".mjs" then "javascript"
  else if ext = ".ts" ∨ ext = ".tsx" then "typescript"
  else if ext = ".py" then "python"
  else if ext = ".java" then "java"
  else if ext = ".cpp" then "cpp"
  else if ext = ".c" then "c"
  else if ext = ".go" then "go"
  else if ext = ".rs" then "rust"
  else if ext = ".rb" then "ruby"
  else if ext = ".php" then "php"
  else "unknown"

/-- buildEdges (symbolGraph.js).  `${imp.from}::${imp.name}` renders a
missing module as the string JS produces for `null`; no modelled parser
sets `extends`, but the loop is kept. -/
def buildEdges (symbols : List Sym) (filePath : String) (g : Graph) :
    Graph :=
  let imports := symbols.filter (fun s => s.type = "import")
  let classes := symbols.filter (fun s => s.type = "class")
  let g1 := { g with edges := g.edges ++ imports.map (fun (imp : Sym) =>
    ({ fromId := filePath ++ "::" ++ imp.name,
       toId := (imp.fromMod.getD "null") ++ "::" ++ imp.name,
       type := "imports" } : Edge)) }
  { g1 with edges := g1.edges ++ classes.filterMap (fun (cls : Sym) =>
      (match cls.extendsName with
       | some e =>
         if e ≠ "" then
           some { fromId := filePath ++ "::" ++ cls.name,
                  toId := filePath ++ "::" ++ e, type := "extends" }
         else none
       | none => none : Option Edge)) }

/-- The parser dispatch of analyzeFile: symbols and the fix that was
applied (`syntaxFixApplied` starts as the semantic-fix result and is
overwritten by the parser result on the `.js`/`.ts`/`.py` branches). -/
def dispatchParse (jsParse tsParse : String → String → ParseResult)
    (file : CodeFile) (semanticFixResult : Option SemanticFixResult) :
    List Sym × Option FixSource :=
  let ext := String.mk (lowerStr (jsExtname file.path.toList))
  if ext = ".js" ∨ ext = ".jsx" ∨ ext = ".mjs" then
    let r := jsParse file.content file.path
    (r.symbols, r.fixApplied)
  else if ext = ".ts" ∨ ext = ".tsx" then
    let r := tsParse file.content file.path
    (r.symbols, r.fixApplied)
  else if ext = ".py" then
    let r := parsePython file.content
    (r.symbols, r.fixApplied)
  else
    (extractGenericSymbols file.content, semanticFixResult.map FixSource.sem)

/-- The fix-tracking step of analyzeFile: push a committable fix. -/
def trackFix (g : Graph) (file : CodeFile) (fx : Option FixSource) : Graph :=
  match fx with
  | some fx =>
    if fx.shouldCommitOf then
      let entry : SyntaxFixEntry :=
        { filePath := file.path, originalContent := file.content,
          fixedContent := fx.contentOf, fixes := fx.fixesOf }
      { g with trackedFixes := g.trackedFixes ++ [entry] }
    else g
  | none => g

/-- analyzeFile (symbolGraph.js): track a committable fix, set the file
record, upsert each symbol under the key `path::name`, build edges. -/
def analyzeFile (jsParse tsParse : String → String → ParseResult)
    (g : Graph) (file : CodeFile)
    (semanticFixResult : Option SemanticFixResult) : Graph :=
  let ext := String.mk (lowerStr (jsExtname file.path.toList))
  let pr := dispatchParse jsParse tsParse file semanticFixResult
  let symbols := pr.1
  let g := trackFix g file pr.2
  let frec : FileRecord :=
    { path := file.path, language := detectLanguage ext,
      symbolCount := symbols.length, size := file.content.length,
      imports := symbols.filter (fun s => s.type = "import"),
      exports := symbols.filter (fun s => s.type = "export") }
  let g := { g with files := mapSet g.files file.path frec }
  let g := symbols.foldl (fun g2 s =>
    let key := file.path ++ "::" ++ s.name
    { g2 with symbols := mapSet g2.symbols key (toGraphSymbol s file.path) }) g
  buildEdges symbols file.path g

/-- Phase 1 of buildSymbolGraph: run semanticFix over the files in
order.  The JS loop mutates the shared file objects, so each call sees
the already-updated earlier files (and the original later ones), and
the results map records fixed files by path. -/
def phase1Go : List CodeFile → List (String × SemanticFixResult) →
    List CodeFile → List CodeFile × List (String × SemanticFixResult)
  | done, fixes, [] => (done, fixes)
  | done, fixes, f :: rest =>
    let r := semanticFix f.content f.path (done ++ f :: rest)
    if r.fixed then
      phase1Go (done ++ [{ f with content := r.content }])
        (mapSet fixes f.path r) rest
    else phase1Go (done ++ [f]) fixes rest

/-- buildSymbolGraph (symbolGraph.js), parametrized by the external
JavaScript and TypeScript parsers. -/
def buildSymbolGraph (jsParse tsParse : String → String → ParseResult)
    (codeFiles : List CodeFile) : Graph :=
  let p1 := phase1Go [] [] codeFiles
  let g0 : Graph :=
    { symbols := [], files := [], edges := [], trackedFixes := [],
      metadata := { totalSymbols := 0, totalFiles := codeFiles.length } }
  let g := p1.1.foldl (fun g f =>
    analyzeFile jsParse tsParse g f (mapLookup p1.2 f.path)) g0
  { g with metadata := { g.metadata with totalSymbols := g.symbols.length } }

/-- The number of graph symbols whose `file` field is `p`. -/
def symCount (g : Graph) (p : String) : Nat :=
  (g.symbols.filter (fun kv => kv.2.file = p)).length

/-- The symbols the parser dispatch yields for a file (independent of
the semantic-fix argument, which only feeds the tracked fixes). -/
def parsedSyms (jsParse tsParse : String → String → ParseResult)
    (file : CodeFile) : List Sym :=
  (dispatchParse jsParse tsParse file none).1

/-- All `path::name` keys the second phase will insert. -/
def allSymbolKeys (jsParse tsParse : String → String → ParseResult)
    (files : List CodeFile) : List String :=
  (files.map (fun f => (parsedSyms jsParse tsParse f).map
    (fun s => f.path ++ "::" ++ s.name))).flatten

/-- One file whose two lines each match the generic function pattern
with the same name. -/
def c3Files : List CodeFile :=
  [{ path := "a.c", content := "function f(\nfunction f(" }]

/-- Files whose symbols have pairwise distinct keys. -/
def c3GoodFiles : List CodeFile :=
  [{ path := "b.c", content := "function g(\nfunction h(" }]

/-- A parser stub standing in for an arbitrary external parser in the
closed witness instances. -/
def trivialParse : String → String → ParseResult :=
  fun _ _ => { symbols := [], fixApplied := none }

/-! ## Claim C1 — idempotence of Syntax Repair (refuted on the code) -/

/-- C1: the spec requires `repair(repair(c).content).fixed == false` for all
`c`, but at `c = "a: 1\nb: 2\nc: 3"` the first repair inserts only the first
missing comma (the global regex scan resumes past the overlapping second
pair), and the second run reports `fixed = true` again — the repair is not
idempotent. -/
theorem c1_syntax_repair_not_idempotent :
    (smartFix "a: 1\nb: 2\nc: 3" "notes.js").fixed = true ∧
    (smartFix "a: 1\nb: 2\nc: 3" "notes.js").content = "a: 1,\nb: 2\nc: 3" ∧
    (smartFix ((smartFix "a: 1\nb: 2\nc: 3" "notes.js").content) "notes.js").fixed
      = true := by
  decide

/-! ## Claim C8 — Syntax Repair never throws; on internal error it returns
`fixed:false` with the original content -/

/-- C8: `attemptSyntaxFix` is a total function (its `try` body, modelled by
`attemptSyntaxFixBody`, always returns a result), and for any body outcome
that is an error, the `catch` shell returns `fixed = false`, the original
content unchanged, and the error message recorded. -/
theorem c8_syntax_repair_error_handling
    (content filePath language : String)
    (body : String → String → String → Except String SyntaxFixResult)
    (e : String) (h : body content filePath language = Except.error e) :
    (attemptSyntaxFixWith body content filePath language).fixed = false ∧
    (attemptSyntaxFixWith body content filePath language).content = content ∧
    (attemptSyntaxFixWith body content filePath language).errors = [e] ∧
    ∃ r, attemptSyntaxFixBody content filePath language = Except.ok r ∧
      attemptSyntaxFix content filePath language = r := by
  refine ⟨?_, ?_, ?_, ?_⟩
  · simp [attemptSyntaxFixWith, h]
  · simp [attemptSyntaxFixWith, h]
  · simp [attemptSyntaxFixWith, h]
  · exact ⟨_, rfl, rfl⟩

/-- C8 witness: a body that fails with an injected error yields the original
content and `fixed = false`. -/
theorem c8_syntax_repair_error_handling_witness :
    (attemptSyntaxFixWith (fun _ _ _ => Except.error "injected failure")
        "const a" "a.js" "javascript").fixed = false ∧
    (attemptSyntaxFixWith (fun _ _ _ => Except.error "injected failure")
        "const a" "a.js" "javascript").content = "const a" ∧
    (attemptSyntaxFixWith (fun _ _ _ => Except.error "injected failure")
        "const a" "a.js" "javascript").errors = ["injected failure"] ∧
    ∃ r, attemptSyntaxFixBody "const a" "a.js" "javascript" = Except.ok r ∧
      attemptSyntaxFix "const a" "a.js" "javascript" = r :=
  c8_syntax_repair_error_handling "const a" "a.js" "javascript"
    (fun _ _ _ => Except.error "injected failure") "injected failure" rfl

/-! ## Claim C10 — `semanticFix` result consistency -/

/-- C10: `semanticFix` returns `shouldCommit` equal to `fixed`, and whenever
`fixed = false` the returned content is the original input. -/
theorem c10_semantic_fix_consistency (content filePath : String)
    (allFiles : List CodeFile) :
    ((semanticFix content filePath allFiles).shouldCommit =
      (semanticFix content filePath allFiles).fixed) ∧
    ((semanticFix content filePath allFiles).fixed = false →
      (semanticFix content filePath allFiles).content = content) := by
  unfold semanticFix
  dsimp only
  split_ifs <;> simp

/-- C10 witness at a concrete input (no exports, hence no fix). -/
theorem c10_semantic_fix_consistency_witness :
    (semanticFix "const a = 1" "a.js" []).content = "const a = 1" ∧
    (semanticFix "const a = 1" "a.js" []).shouldCommit =
      (semanticFix "const a = 1" "a.js" []).fixed :=
  ⟨(c10_semantic_fix_consistency "const a = 1" "a.js" []).2 (by decide),
   (c10_semantic_fix_consistency "const a = 1" "a.js" []).1⟩

/-! ## Claim C2 — bracket balance after Syntax Repair -/

/-- Dropping a while-prefix of `p`-characters does not change the count of a
character that fails `p`. -/
theorem count_dropWhile_of_not (p : Char → Bool) (ch : Char) (h : p ch = false)
    (l : List Char) : (l.dropWhile p).count ch = l.count ch := by
  conv_rhs => rw [← List.takeWhile_append_dropWhile p l]
  rw [List.count_append]
  have hz : (l.takeWhile p).count ch = 0 := by
    rw [List.count_eq_zero]
    intro hm
    have := List.mem_takeWhile_imp hm
    rw [h] at this
    exact Bool.noConfusion this
  omega

/-- `trimEnd` removes only whitespace, so non-whitespace counts survive. -/
theorem count_jsTrimEnd (ch : Char) (h : wsChar ch = false) (s : List Char) :
    (jsTrimEnd s).count ch = s.count ch := by
  unfold jsTrimEnd
  rw [List.count_reverse, count_dropWhile_of_not _ _ h, List.count_reverse]

/-- Splitting a list at its whitespace run plus one character. -/
theorem count_split_at_ws (rest : List Char) (d : Char)
    (hh : (rest.drop (rest.takeWhile wsChar).length).head? = some d) (ch : Char) :
    rest.count ch = (rest.takeWhile wsChar).count ch +
      (if d = ch then 1 else 0) +
      (rest.drop ((rest.takeWhile wsChar).length + 1)).count ch := by
  have htake : rest.takeWhile wsChar = rest.take (rest.takeWhile wsChar).length :=
    List.prefix_iff_eq_take.mp (List.takeWhile_prefix wsChar)
  cases hdrop : rest.drop (rest.takeWhile wsChar).length with
  | nil => rw [hdrop] at hh; exact Option.noConfusion hh
  | cons x t =>
    rw [hdrop] at hh
    have hx : x = d := by
      simpa using hh
    have ht : t = rest.drop ((rest.takeWhile wsChar).length + 1) := by
      have := List.tail_drop rest (rest.takeWhile wsChar).length
      rw [hdrop] at this
      simpa using this
    conv_lhs => rw [← List.take_append_drop (rest.takeWhile wsChar).length rest]
    rw [List.count_append, hdrop, ← htake, List.count_cons, hx, ht]
    by_cases hd : d = ch <;> simp [hd] <;> omega

/-- The final comma-cleanup pass deletes only commas: counts of every other
character are unchanged. -/
theorem count_fix5bGo (ch : Char) (h : ch ≠ ',') :
    ∀ fuel s, (fix5bGo fuel s).count ch = s.count ch := by
  intro fuel
  induction fuel with
  | zero => intro s; cases s <;> rfl
  | succ fuel ih =>
    intro s
    match s with
    | [] => rfl
    | c :: rest =>
      rw [fix5bGo]
      by_cases hc : c = ','
      · simp only [if_pos hc]
        cases hh : (rest.drop (rest.takeWhile wsChar).length).head? with
        | none => simp [List.count_cons, ih, hc, h]
        | some d =>
          by_cases hbr : d = rbrace || d = ']'
          · simp only [hbr, if_pos rfl, if_true]
            rw [List.count_append, List.count_cons, ih,
              List.count_cons, hc]
            have := count_split_at_ws rest d hh ch
            have hch : ¬ (',' = ch) := fun hq => h hq.symm
            by_cases hd : d = ch <;> simp [hd, hch] at this ⊢ <;> omega
          · simp only [hbr, if_neg, Bool.false_eq_true, if_false]
            simp [List.count_cons, ih, hc, h]
      · simp only [if_neg hc]
        simp [List.count_cons, ih]

/-- `fix5b` preserves counts of non-comma characters. -/
theorem count_fix5b (ch : Char) (h : ch ≠ ',') (s : List Char) :
    countChar ch (fix5b s) = countChar ch s :=
  count_fix5bGo ch h s.length s

/-- A character that is not `}`, `;`, a newline or other whitespace is
unaffected by the brace-balancing branch. -/
theorem count_balanceBraces_other (c : List Char) (ch : Char)
    (hws : wsChar ch = false) (h1 : ch ≠ rbrace) (h2 : ch ≠ ';') :
    countChar ch (balanceBraces c) = countChar ch c := by
  have hn : ch ≠ '\n' := by
    intro h
    rw [h] at hws
    exact absurd hws (by decide)
  unfold balanceBraces countChar
  split_ifs with hb hs
  · rw [List.count_append, count_jsTrimEnd ch hws]
    simp [List.count_cons, h1, Ne.symm h1, h2, Ne.symm h2, hn, Ne.symm hn]
  · rw [List.count_append]
    simp [List.count_cons, List.count_replicate, h1, Ne.symm h1, hn, Ne.symm hn]
  · rfl

/-- Closing braces gained in the brace-balancing branch: one in the "smart"
branch, the full deficit otherwise. -/
theorem count_balanceBraces_rbrace (c : List Char) :
    countChar rbrace (balanceBraces c) =
      countChar rbrace c +
        (if countChar lbrace c > countChar rbrace c then
          (if smartCloseCond c then 1
           else countChar lbrace c - countChar rbrace c)
         else 0) := by
  unfold balanceBraces countChar
  split_ifs with hb hs
  · rw [List.count_append, count_jsTrimEnd rbrace (by decide)]
    simp [List.count_cons, (show ¬ (';' = rbrace) by decide),
      (show ¬ ('\n' = rbrace) by decide)]
  · rw [List.count_append]
    simp [List.count_cons, List.count_replicate,
      (show ¬ ('\n' = rbrace) by decide)]
  · simp

/-- C2 (amended): the repaired content always has at least as many closing
parentheses as opening ones and at least as many closing square brackets as
opening ones; and when, just before the balancing step, every bracket kind
has at least as many opening as closing tokens and braces are either already
balanced or the last non-empty line is not `}`/`},`, the repaired content has
exactly balanced counts for all three kinds. -/
theorem c2_bracket_balance_amended (content filePath : String) :
    (countChar '(' (repairedContent content filePath) ≤
       countChar ')' (repairedContent content filePath) ∧
     countChar '[' (repairedContent content filePath) ≤
       countChar ']' (repairedContent content filePath)) ∧
    (countChar rbrace (preBalanced content filePath) ≤
        countChar lbrace (preBalanced content filePath) →
     countChar ')' (preBalanced content filePath) ≤
        countChar '(' (preBalanced content filePath) →
     countChar ']' (preBalanced content filePath) ≤
        countChar '[' (preBalanced content filePath) →
     (countChar lbrace (preBalanced content filePath) =
        countChar rbrace (preBalanced content filePath) ∨
      smartCloseCond (preBalanced content filePath) = false) →
     (countChar lbrace (repairedContent content filePath) =
        countChar rbrace (repairedContent content filePath) ∧
      countChar '(' (repairedContent content filePath) =
        countChar ')' (repairedContent content filePath) ∧
      countChar '[' (repairedContent content filePath) =
        countChar ']' (repairedContent content filePath))) := by
  have key : repairedContent content filePath =
      (balanceAndCleanup (preBalanced content filePath)).1 := rfl
  set pre := preBalanced content filePath with hpre
  have main : ∀ ch : Char, ch ≠ ',' →
      countChar ch (repairedContent content filePath) =
        countChar ch (balanceBraces pre) +
        (if countChar '(' pre > countChar ')' pre
         then (List.replicate (countChar '(' pre - countChar ')' pre) ')').count ch
         else 0) +
        (if countChar '[' pre > countChar ']' pre
         then (List.replicate (countChar '[' pre - countChar ']' pre) ']').count ch
         else 0) := by
    intro ch hcomma
    rw [key]
    unfold balanceAndCleanup
    dsimp only
    rw [count_fix5b ch hcomma]
    simp only [countChar]
    split_ifs <;> simp [List.count_append] <;> omega
  constructor
  · constructor
    · have hO := main '(' (by decide)
      have hC := main ')' (by decide)
      rw [count_balanceBraces_other pre '(' (by decide) (by decide) (by decide)] at hO
      rw [count_balanceBraces_other pre ')' (by decide) (by decide) (by decide)] at hC
      simp [List.count_replicate] at hO hC
      rw [hO, hC]
      split_ifs <;> omega
    · have hO := main '[' (by decide)
      have hC := main ']' (by decide)
      rw [count_balanceBraces_other pre '[' (by decide) (by decide) (by decide)] at hO
      rw [count_balanceBraces_other pre ']' (by decide) (by decide) (by decide)] at hC
      simp [List.count_replicate] at hO hC
      rw [hO, hC]
      split_ifs <;> omega
  · intro h1 h2 h3 h4
    have hsm : ¬ (countChar lbrace pre > countChar rbrace pre ∧
        smartCloseCond pre = true) := by
      rcases h4 with h4 | h4
      · exact fun hq => by omega
      · exact fun hq => by rw [h4] at hq; exact Bool.noConfusion hq.2
    refine ⟨?_, ?_, ?_⟩
    · have hO := main lbrace (by decide)
      have hC := main rbrace (by decide)
      rw [count_balanceBraces_other pre lbrace (by decide) (by decide) (by decide)] at hO
      rw [count_balanceBraces_rbrace pre] at hC
      simp [List.count_replicate, (show ¬ (')' = lbrace) by decide),
        (show ¬ (']' = lbrace) by decide), (show ¬ (')' = rbrace) by decide),
        (show ¬ (']' = rbrace) by decide)] at hO hC
      rw [hO, hC]
      by_cases hgt : countChar lbrace pre > countChar rbrace pre
      · have hns : smartCloseCond pre = false := by
          cases hq : smartCloseCond pre
          · rfl
          · exact absurd ⟨hgt, hq⟩ hsm
        rw [if_pos hgt, hns]
        simp only [Bool.false_eq_true, if_false]
        omega
      · rw [if_neg hgt]
        omega
    · have hO := main '(' (by decide)
      have hC := main ')' (by decide)
      rw [count_balanceBraces_other pre '(' (by decide) (by decide) (by decide)] at hO
      rw [count_balanceBraces_other pre ')' (by decide) (by decide) (by decide)] at hC
      simp [List.count_replicate] at hO hC
      rw [hO, hC]
      split_ifs <;> omega
    · have hO := main '[' (by decide)
      have hC := main ']' (by decide)
      rw [count_balanceBraces_other pre '[' (by decide) (by decide) (by decide)] at hO
      rw [count_balanceBraces_other pre ']' (by decide) (by decide) (by decide)] at hC
      simp [List.count_replicate] at hO hC
      rw [hO, hC]
      split_ifs <;> omega

/-- C2 witness: at input `"{"` (one unbalanced opening brace) the
hypotheses of the amended claim hold and the repaired content is balanced. -/
theorem c2_bracket_balance_amended_witness :
    countChar rbrace (preBalanced "\x7b" "notes.js") ≤
      countChar lbrace (preBalanced "\x7b" "notes.js") ∧
    countChar lbrace (repairedContent "\x7b" "notes.js") =
      countChar rbrace (repairedContent "\x7b" "notes.js") ∧
    countChar '(' (repairedContent "\x7b" "notes.js") =
      countChar ')' (repairedContent "\x7b" "notes.js") ∧
    countChar '[' (repairedContent "\x7b" "notes.js") =
      countChar ']' (repairedContent "\x7b" "notes.js") :=
  ⟨by decide,
   (c2_bracket_balance_amended "\x7b" "notes.js").2 (by decide) (by decide)
     (by decide) (Or.inr (by decide))⟩

/-- C2 counterexample: the input `"}"` — more closing than opening braces —
is returned by the repair unchanged: the balancer only appends missing
closing tokens when openings exceed closings, so the surplus closing brace
survives and the counts stay unequal. -/
theorem c2_bracket_balance_counterexample :
    repairedContent "\x7d" "notes.js" = [rbrace] ∧
    countChar lbrace (repairedContent "\x7d" "notes.js") = 0 ∧
    countChar rbrace (repairedContent "\x7d" "notes.js") = 1 := by
  exact ⟨by decide, by decide, by decide⟩

/-! ## Claim C5 — cosine similarity bounds -/

/-- A list sum of squares as a `Finset.range` sum. -/
theorem list_sum_sq_eq (v : List ℝ) :
    (v.map fun x => x * x).sum =
      ∑ i ∈ Finset.range v.length, v.getD i 0 * v.getD i 0 := by
  induction v with
  | nil => simp
  | cons a v ih =>
    rw [List.map_cons, List.sum_cons, ih, List.length_cons,
      Finset.sum_range_succ']
    simp [add_comm]

/-- The zipped dot product as a `Finset.range` sum (for equal lengths). -/
theorem list_dot_eq (v : List ℝ) : ∀ w : List ℝ, v.length = w.length →
    ((v.zip w).map fun p => p.1 * p.2).sum =
      ∑ i ∈ Finset.range v.length, v.getD i 0 * w.getD i 0 := by
  induction v with
  | nil => intro w _; simp
  | cons a v ih =>
    intro w hw
    cases w with
    | nil => simp at hw
    | cons b w =>
      simp only [List.zip_cons_cons, List.map_cons, List.sum_cons]
      rw [ih w (by simpa using hw), List.length_cons, Finset.sum_range_succ']
      simp [add_comm]

/-- C5: for equal-length real vectors `cosineSimilarity` succeeds with a
value in `[-1, 1]`, and returns exactly `0` whenever either vector has zero
norm (no `NaN`, no exception). -/
theorem c5_cosine_similarity_bounds (v w : List ℝ) (h : v.length = w.length) :
    ∃ r, cosineSimilarity v w = .ok r ∧ -1 ≤ r ∧ r ≤ 1 ∧
      ((Real.sqrt ((v.map fun x => x * x).sum) = 0 ∨
        Real.sqrt ((w.map fun x => x * x).sum) = 0) → r = 0) := by
  unfold cosineSimilarity
  rw [if_neg (by simp [h])]
  by_cases hz : Real.sqrt ((v.map fun x => x * x).sum) = 0 ∨
      Real.sqrt ((w.map fun x => x * x).sum) = 0
  · rw [if_pos hz]
    exact ⟨0, rfl, by norm_num, by norm_num, fun _ => rfl⟩
  · rw [if_neg hz]
    push_neg at hz
    set dot := ((v.zip w).map fun p => p.1 * p.2).sum with hdot
    set A := (v.map fun x => x * x).sum with hA
    set B := (w.map fun x => x * x).sum with hB
    have hA0 : 0 ≤ A := by
      rw [hA]
      apply List.sum_nonneg
      intro x hx
      simp only [List.mem_map] at hx
      obtain ⟨y, _, rfl⟩ := hx
      exact mul_self_nonneg y
    have hB0 : 0 ≤ B := by
      rw [hB]
      apply List.sum_nonneg
      intro x hx
      simp only [List.mem_map] at hx
      obtain ⟨y, _, rfl⟩ := hx
      exact mul_self_nonneg y
    have hCS : dot ^ 2 ≤ A * B := by
      rw [hdot, hA, hB, list_dot_eq v w h, list_sum_sq_eq v, list_sum_sq_eq w, ← h]
      have := Finset.sum_mul_sq_le_sq_mul_sq (Finset.range v.length)
        (fun i => v.getD i 0) (fun i => w.getD i 0)
      simpa [pow_two] using this
    have habs : |dot| ≤ Real.sqrt A * Real.sqrt B := by
      calc |dot| = Real.sqrt (dot ^ 2) := (Real.sqrt_sq_eq_abs dot).symm
        _ ≤ Real.sqrt (A * B) := Real.sqrt_le_sqrt hCS
        _ = Real.sqrt A * Real.sqrt B := Real.sqrt_mul hA0 B
    have hposA : 0 < Real.sqrt A :=
      lt_of_le_of_ne (Real.sqrt_nonneg A) (Ne.symm hz.1)
    have hposB : 0 < Real.sqrt B :=
      lt_of_le_of_ne (Real.sqrt_nonneg B) (Ne.symm hz.2)
    have hpos : 0 < Real.sqrt A * Real.sqrt B := mul_pos hposA hposB
    have hdiv : |dot / (Real.sqrt A * Real.sqrt B)| ≤ 1 := by
      rw [abs_div, abs_of_pos hpos]
      exact (div_le_one hpos).mpr habs
    have hb := abs_le.mp hdiv
    exact ⟨_, rfl, hb.1, hb.2, fun hq => absurd hq (by push_neg; exact hz)⟩

/-- C5 witness: the zero vector against itself — the similarity is exactly
`0`, inside the bounds. -/
theorem c5_cosine_similarity_bounds_witness :
    cosineSimilarity [(0 : ℝ)] [(0 : ℝ)] = .ok 0 ∧
    ∃ r, cosineSimilarity [(0 : ℝ)] [(0 : ℝ)] = .ok r ∧ -1 ≤ r ∧ r ≤ 1 ∧
      ((Real.sqrt (([(0 : ℝ)].map fun x => x * x).sum) = 0 ∨
        Real.sqrt (([(0 : ℝ)].map fun x => x * x).sum) = 0) → r = 0) :=
  ⟨by simp [cosineSimilarity], c5_cosine_similarity_bounds [0] [0] rfl⟩

/-! ## Claim C6 — semantic search ordering, size and stripping -/

/-- A successful `mapMExcept` preserves the length. -/
theorem mapMExcept_length (f : α → Except ε β) :
    ∀ l res, mapMExcept f l = .ok res → res.length = l.length := by
  intro l
  induction l with
  | nil =>
    intro res h
    simp only [mapMExcept] at h
    cases h
    rfl
  | cons x xs ih =>
    intro res h
    simp only [mapMExcept] at h
    cases hx : f x with
    | error e => rw [hx] at h; exact Except.noConfusion h
    | ok y =>
      rw [hx] at h
      cases hxs : mapMExcept f xs with
      | error e => rw [hxs] at h; exact Except.noConfusion h
      | ok ys =>
        rw [hxs] at h
        cases h
        simp [ih ys hxs]

/-- Every element of a successful `mapMExcept` is the image of a source
element. -/
theorem mapMExcept_mem (f : α → Except ε β) :
    ∀ l res, mapMExcept f l = .ok res → ∀ b ∈ res, ∃ a ∈ l, f a = .ok b := by
  intro l
  induction l with
  | nil =>
    intro res h b hb
    simp only [mapMExcept] at h
    cases h
    simp at hb
  | cons x xs ih =>
    intro res h b hb
    simp only [mapMExcept] at h
    cases hx : f x with
    | error e => rw [hx] at h; exact Except.noConfusion h
    | ok y =>
      rw [hx] at h
      cases hxs : mapMExcept f xs with
      | error e => rw [hxs] at h; exact Except.noConfusion h
      | ok ys =>
        rw [hxs] at h
        cases h
        rcases List.mem_cons.mp hb with hb | hb
        · exact ⟨x, List.mem_cons_self x xs, by rw [hx, hb]⟩
        · obtain ⟨a, ha, hfa⟩ := ih ys hxs b hb
          exact ⟨a, List.mem_cons_of_mem x ha, hfa⟩

/-- C6: a successful semantic search returns a list sorted by descending
similarity, of length at most `topK` and at most the number of stored
records, with every raw embedding vector stripped (`none`). -/
theorem c6_semantic_search_ordering (index : List EmbeddingRecord)
    (queryEmbedding : List ℝ) (topK : Nat) (rs : List SearchResult)
    (h : semanticSearch index queryEmbedding topK = .ok rs) :
    rs.Pairwise (fun a b => b.similarity ≤ a.similarity) ∧
    rs.length ≤ topK ∧ rs.length ≤ index.length ∧
    ∀ r ∈ rs, r.embedding = none := by
  unfold semanticSearch at h
  cases hm : mapMExcept (searchMapStep queryEmbedding) index with
  | error e =>
    rw [hm] at h
    exact Except.noConfusion h
  | ok results =>
    rw [hm] at h
    simp only [Except.bind, bind, pure, Except.pure, Except.ok.injEq] at h
    subst h
    have htake := List.take_sublist topK
      (results.mergeSort fun a b => decide (b.similarity ≤ a.similarity))
    refine ⟨?_, ?_, ?_, ?_⟩
    · have hs := @List.sorted_mergeSort SearchResult
        (fun a b => decide (b.similarity ≤ a.similarity))
        (fun a b c hab hbc => by
          simp only [decide_eq_true_eq] at *
          exact le_trans hbc hab)
        (fun a b => by
          simp only [Bool.or_eq_true, decide_eq_true_eq]
          exact le_total b.similarity a.similarity)
        results
      have := hs.sublist htake
      exact this.imp fun hab => by simpa using hab
    · exact List.length_take_le _ _
    · have h1 := htake.length_le
      rw [List.length_mergeSort] at h1
      exact h1.trans (le_of_eq (mapMExcept_length _ index results hm))
    · intro r hr
      have hr2 : r ∈ results := by
        have := htake.mem hr
        exact List.mem_mergeSort.mp this
      obtain ⟨a, _, hfa⟩ := mapMExcept_mem _ index results hm r hr2
      unfold searchMapStep at hfa
      cases hc : cosineSimilarity queryEmbedding a.embedding with
      | error e => rw [hc] at hfa; exact Except.noConfusion hfa
      | ok sim =>
        rw [hc] at hfa
        simp only [Except.bind, bind, pure, Except.pure, Except.ok.injEq] at hfa
        rw [← hfa]

/-- C6 witness: the empty index — the search succeeds with the empty result
list, which satisfies all the bounds. -/
theorem c6_semantic_search_ordering_witness :
    semanticSearch [] [] 5 = .ok [] ∧
    ([] : List SearchResult).length ≤ 5 ∧
    ([] : List SearchResult).length ≤ ([] : List EmbeddingRecord).length := by
  have h : semanticSearch [] [] 5 = .ok [] := by
    simp [semanticSearch, mapMExcept, List.mergeSort_nil]
  exact ⟨h, (c6_semantic_search_ordering [] [] 5 [] h).2.1,
    (c6_semantic_search_ordering [] [] 5 [] h).2.2.1⟩

/-! ## Claim C7 — `deleteIndex` idempotent and total on missing indexes -/

/-- C7: deleting when no index file exists succeeds without error, and two
consecutive `deleteIndex` calls both succeed — the second is a no-op. -/
theorem c7_delete_index_idempotent (fs : FileSystem) (repoId : String) :
    (indexPathOf repoId ∉ fs → deleteIndexAttempt fs repoId = .ok fs) ∧
    (∃ fs1 fs2, deleteIndexAttempt fs repoId = .ok fs1 ∧
      deleteIndexAttempt fs1 repoId = .ok fs2 ∧ fs2 = fs1 ∧
      deleteIndex (deleteIndex fs repoId) repoId = deleteIndex fs repoId) := by
  constructor
  · intro habs
    unfold deleteIndexAttempt
    simp [fsAccess, fsUnlink, habs, Except.bind, bind]
  · by_cases hmem : indexPathOf repoId ∈ fs
    · refine ⟨fs.filter fun q => q ≠ indexPathOf repoId, _, ?_, ?_, rfl, ?_⟩
      · unfold deleteIndexAttempt
        simp [fsAccess, fsUnlink, hmem, Except.bind, bind]
      · have hnot : indexPathOf repoId ∉ fs.filter fun q => q ≠ indexPathOf repoId := by
          simp [List.mem_filter]
        unfold deleteIndexAttempt
        simp [fsAccess, fsUnlink, hnot, Except.bind, bind]
      · unfold deleteIndex deleteIndexAttempt
        have hnot : indexPathOf repoId ∉ fs.filter fun q => q ≠ indexPathOf repoId := by
          simp [List.mem_filter]
        simp [fsAccess, fsUnlink, hmem, hnot, Except.bind, bind]
    · refine ⟨fs, fs, ?_, ?_, rfl, ?_⟩
      · unfold deleteIndexAttempt
        simp [fsAccess, fsUnlink, hmem, Except.bind, bind]
      · unfold deleteIndexAttempt
        simp [fsAccess, fsUnlink, hmem, Except.bind, bind]
      · unfold deleteIndex deleteIndexAttempt
        simp [fsAccess, fsUnlink, hmem, Except.bind, bind]

/-- C7 witness: a file system without the index file for `"ghost"` — the
delete succeeds and a second delete is a no-op. -/
theorem c7_delete_index_idempotent_witness :
    "data/indexes/ghost.json" ∉ (["data/indexes/other.json"] : FileSystem) ∧
    deleteIndexAttempt ["data/indexes/other.json"] "ghost" =
      .ok ["data/indexes/other.json"] := by
  have hp : indexPathOf "ghost" = "data/indexes/ghost.json" := by decide
  have hnm : indexPathOf "ghost" ∉ (["data/indexes/other.json"] : FileSystem) := by
    rw [hp]; decide
  refine ⟨by decide, ?_⟩
  have := (c7_delete_index_idempotent ["data/indexes/other.json"] "ghost").1 hnm
  exact this

/-! ## Claim C9 — the high-confidence naming-repair rule -/

/-- Distinct lists cannot both be empty, so the maximum length is positive. -/
theorem max_len_pos_of_ne {l1 l2 : List Char} (h : l1 ≠ l2) :
    0 < Nat.max l1.length l2.length := by
  rcases Nat.eq_zero_or_pos (Nat.max l1.length l2.length) with h0 | h0
  · exfalso
    obtain ⟨h1, h2⟩ := Nat.max_eq_zero_iff.mp h0
    exact h (by rw [List.length_eq_zero.mp h1, List.length_eq_zero.mp h2])
  · exact h0

/-- The integer test `simBelowHalf` decides `stringSimilarity < 1/2`. -/
theorem simBelowHalf_iff (s1 s2 : String) :
    simBelowHalf s1 s2 = true ↔ stringSimilarity s1 s2 < 1/2 := by
  unfold simBelowHalf stringSimilarity
  dsimp only
  by_cases heq : lowerStr s1.toList = lowerStr s2.toList
  · rw [if_pos heq, if_pos heq]
    norm_num
  · rw [if_neg heq, if_neg heq]
    have hL : 0 < Nat.max (lowerStr s1.toList).length (lowerStr s2.toList).length :=
      max_len_pos_of_ne heq
    rw [decide_eq_true_eq]
    set d := levenshtein (lowerStr s1.toList) (lowerStr s2.toList) with hd
    set L := Nat.max (lowerStr s1.toList).length (lowerStr s2.toList).length with hLs
    have hLQ : (0 : ℚ) < L := by exact_mod_cast hL
    constructor
    · intro h
      have hq : (L : ℚ) < 2 * d := by exact_mod_cast h
      have hdL : (1 : ℚ)/2 < (d : ℚ)/L := by
        rw [div_lt_div_iff₀ (by norm_num) hLQ]
        linarith
      linarith
    · intro h
      have hdL : (1 : ℚ)/2 < (d : ℚ)/L := by linarith
      rw [div_lt_div_iff₀ (by norm_num) hLQ] at hdL
      have hq : (L : ℚ) < 2 * d := by linarith
      exact_mod_cast hq

/-- The integer test `simAboveSevenTenths` decides `stringSimilarity > 7/10`. -/
theorem simAboveSevenTenths_iff (s1 s2 : String) :
    simAboveSevenTenths s1 s2 = true ↔ stringSimilarity s1 s2 > 7/10 := by
  unfold simAboveSevenTenths stringSimilarity
  dsimp only
  by_cases heq : lowerStr s1.toList = lowerStr s2.toList
  · rw [if_pos heq, if_pos heq]
    norm_num
  · rw [if_neg heq, if_neg heq]
    have hL : 0 < Nat.max (lowerStr s1.toList).length (lowerStr s2.toList).length :=
      max_len_pos_of_ne heq
    rw [decide_eq_true_eq]
    set d := levenshtein (lowerStr s1.toList) (lowerStr s2.toList) with hd
    set L := Nat.max (lowerStr s1.toList).length (lowerStr s2.toList).length with hLs
    have hLQ : (0 : ℚ) < L := by exact_mod_cast hL
    constructor
    · intro h
      have hq : (10 : ℚ) * d < 3 * L := by exact_mod_cast h
      have hdL : (d : ℚ)/L < 3/10 := by
        rw [div_lt_div_iff₀ hLQ (by norm_num)]
        linarith
      linarith
    · intro h
      have hdL : (d : ℚ)/L < 3/10 := by linarith
      rw [div_lt_div_iff₀ hLQ (by norm_num)] at hdL
      have hq : (10 : ℚ) * d < 3 * L := by linarith
      exact_mod_cast hq

/-- Membership in a conditional singleton-or-empty list. -/
theorem mem_ite_list {α : Type} {c : Prop} [Decidable c] {x : α} {l : List α}
    (h : x ∈ if c then l else []) : c ∧ x ∈ l := by
  split_ifs at h with hc
  · exact ⟨hc, h⟩
  · simp at h

/-- Each map entry after one insertion is either the inserted flag or an
entry already present. -/
theorem dedupStep_mem (m : List (String × TypoFlag)) (t : TypoFlag)
    (p : String × TypoFlag) (hp : p ∈ dedupStep m t) : p.2 = t ∨ p ∈ m := by
  unfold dedupStep at hp
  dsimp only at hp
  cases hf : m.find? (fun q => q.1 = typoKey t) with
  | none =>
    rw [hf] at hp
    rcases List.mem_append.mp hp with h | h
    · exact Or.inr h
    · simp only [List.mem_singleton] at h
      exact Or.inl (by rw [h])
  | some ex =>
    rw [hf] at hp
    dsimp only at hp
    split_ifs at hp with hgt
    · rcases List.mem_map.mp hp with ⟨q, hq, hfq⟩
      by_cases hk : q.1 = typoKey t
      · rw [if_pos hk] at hfq
        exact Or.inl (by rw [← hfq])
      · rw [if_neg hk] at hfq
        exact Or.inr (hfq ▸ hq)
    · exact Or.inr hp

/-- Fold version of `dedupStep_mem`. -/
theorem dedupFold_mem (l : List TypoFlag) :
    ∀ m (p : String × TypoFlag), p ∈ l.foldl dedupStep m → p ∈ m ∨ p.2 ∈ l := by
  induction l with
  | nil => intro m p hp; exact Or.inl hp
  | cons t l ih =>
    intro m p hp
    rcases ih (dedupStep m t) p hp with h | h
    · rcases dedupStep_mem m t p h with h2 | h2
      · exact Or.inr (by rw [h2]; exact List.mem_cons_self t l)
      · exact Or.inl h2
    · exact Or.inr (List.mem_cons_of_mem _ h)

/-- Every deduplicated flag comes from the raw candidate list. -/
theorem dedupTypos_sub (l : List TypoFlag) (t : TypoFlag)
    (h : t ∈ dedupTypos l) : t ∈ l := by
  unfold dedupTypos at h
  rcases List.mem_map.mp h with ⟨p, hp, rfl⟩
  rcases dedupFold_mem l [] p hp with h2 | h2
  · simp at h2
  · exact h2

/-- Two map entries with the same key are equal when keys are distinct. -/
theorem eq_of_fst_eq_of_nodup {m : List (String × TypoFlag)}
    (hn : (m.map Prod.fst).Nodup) {p q : String × TypoFlag}
    (hp : p ∈ m) (hq : q ∈ m) (h : p.1 = q.1) : p = q := by
  induction m with
  | nil => simp at hp
  | cons a m ih =>
    rw [List.map_cons, List.nodup_cons] at hn
    rcases List.mem_cons.mp hp with hp1 | hp1 <;>
      rcases List.mem_cons.mp hq with hq1 | hq1
    · rw [hp1, hq1]
    · exfalso
      have h2 : q.1 ∈ m.map Prod.fst := List.mem_map_of_mem _ hq1
      rw [← h] at h2
      rw [hp1] at h2
      exact hn.1 h2
    · exfalso
      have h2 : p.1 ∈ m.map Prod.fst := List.mem_map_of_mem _ hp1
      rw [h] at h2
      rw [hq1] at h2
      exact hn.1 h2
    · exact ih hn.2 hp1 hq1

/-- No confidence beats an existing high-confidence entry. -/
theorem confidenceGT_high (c : String) :
    confidenceGT (confidenceOrder c) (some 3) = false := by
  unfold confidenceGT confidenceOrder
  split_ifs <;> simp

/-- The insertion step preserves the deduplication invariant when the
inserted flag is high- or medium-confidence. -/
theorem dedupStep_inv (m : List (String × TypoFlag)) (t : TypoFlag)
    (hm : dedupInv m)
    (ht : t.confidence = "high" ∨ t.confidence = "medium") :
    dedupInv (dedupStep m t) := by
  obtain ⟨hn, hkeys, hconf⟩ := hm
  unfold dedupStep
  dsimp only
  cases hf : m.find? (fun q => q.1 = typoKey t) with
  | none =>
    have hnot : ∀ p ∈ m, ¬ (p.1 = typoKey t) := by
      intro p hp
      have := List.find?_eq_none.mp hf p hp
      simpa using this
    refine ⟨?_, ?_, ?_⟩
    · rw [List.map_append, List.map_singleton]
      rw [List.nodup_append]
      refine ⟨hn, List.nodup_singleton _, ?_⟩
      intro k hk
      simp only [List.mem_singleton]
      rcases List.mem_map.mp hk with ⟨p, hp, rfl⟩
      exact fun hcon => hnot p hp hcon
    · intro p hp
      rcases List.mem_append.mp hp with h | h
      · exact hkeys p h
      · simp only [List.mem_singleton] at h
        rw [h]
    · intro p hp
      rcases List.mem_append.mp hp with h | h
      · exact hconf p h
      · simp only [List.mem_singleton] at h
        rw [h]
        exact ht
  | some ex =>
    dsimp only
    split_ifs with hgt
    · refine ⟨?_, ?_, ?_⟩
      · have : (m.map fun p => if p.1 = typoKey t then (typoKey t, t) else p).map
            Prod.fst = m.map Prod.fst := by
          rw [List.map_map]
          apply List.map_congr_left
          intro p _
          by_cases hk : p.1 = typoKey t
          · simp [hk]
          · simp [hk]
        rw [this]
        exact hn
      · intro p hp
        rcases List.mem_map.mp hp with ⟨q, hq, hfq⟩
        by_cases hk : q.1 = typoKey t
        · rw [if_pos hk] at hfq
          rw [← hfq]
        · rw [if_neg hk] at hfq
          exact hfq ▸ hkeys q hq
      · intro p hp
        rcases List.mem_map.mp hp with ⟨q, hq, hfq⟩
        by_cases hk : q.1 = typoKey t
        · rw [if_pos hk] at hfq
          rw [← hfq]
          exact ht
        · rw [if_neg hk] at hfq
          exact hfq ▸ hconf q hq
    · exact ⟨hn, hkeys, hconf⟩

/-- The insertion step keeps an existing high-confidence key high. -/
theorem dedupStep_preserves_high (m : List (String × TypoFlag)) (t : TypoFlag)
    (k : String) (hm : dedupInv m) (h : keyHighIn m k) :
    keyHighIn (dedupStep m t) k := by
  obtain ⟨p, hp, hpk, hph⟩ := h
  unfold dedupStep
  dsimp only
  cases hf : m.find? (fun q => q.1 = typoKey t) with
  | none => exact ⟨p, List.mem_append_left _ hp, hpk, hph⟩
  | some ex =>
    have hexm := List.mem_of_find?_eq_some hf
    have hexk : ex.1 = typoKey t := by
      have := List.find?_some hf
      simpa using this
    dsimp only
    split_ifs with hgt
    · by_cases hk : p.1 = typoKey t
      · have hpex : p = ex := eq_of_fst_eq_of_nodup hm.1 hp hexm (by rw [hk, hexk])
        have : confidenceOrder ex.2.confidence = some 3 := by
          rw [← hpex, hph]
          rfl
        rw [this, confidenceGT_high] at hgt
        exact Bool.noConfusion hgt
      · refine ⟨p, ?_, hpk, hph⟩
        have hmm := List.mem_map_of_mem
          (fun q => if q.1 = typoKey t then (typoKey t, t) else q) hp
        dsimp only at hmm
        rw [if_neg hk] at hmm
        exact hmm
    · exact ⟨p, hp, hpk, hph⟩

/-- Inserting a high-confidence flag makes (or keeps) its key high. -/
theorem dedupStep_establish (m : List (String × TypoFlag)) (t : TypoFlag)
    (hm : dedupInv m) (ht : t.confidence = "high") :
    keyHighIn (dedupStep m t) (typoKey t) := by
  unfold dedupStep
  dsimp only
  cases hf : m.find? (fun q => q.1 = typoKey t) with
  | none =>
    exact ⟨(typoKey t, t), List.mem_append_right _ (List.mem_singleton.mpr rfl),
      rfl, ht⟩
  | some ex =>
    have hexm := List.mem_of_find?_eq_some hf
    have hexk : ex.1 = typoKey t := by
      have := List.find?_some hf
      simpa using this
    dsimp only
    by_cases hex : ex.2.confidence = "high"
    · have : confidenceOrder ex.2.confidence = some 3 := by rw [hex]; rfl
      rw [this, confidenceGT_high]
      simp only [Bool.false_eq_true, if_false]
      exact ⟨ex, hexm, hexk, hex⟩
    · have hmed : ex.2.confidence = "medium" := (hm.2.2 ex hexm).resolve_left hex
      have hgt : confidenceGT (confidenceOrder t.confidence)
          (confidenceOrder ex.2.confidence) = true := by
        rw [ht, hmed]
        rfl
      rw [hgt]
      simp only [if_true]
      refine ⟨(typoKey t, t), ?_, rfl, ht⟩
      have hmm := List.mem_map_of_mem
        (fun q => if q.1 = typoKey t then (typoKey t, t) else q) hexm
      dsimp only at hmm
      rw [if_pos hexk] at hmm
      exact hmm

/-- The deduplication fold preserves the invariant. -/
theorem dedupFold_inv (l : List TypoFlag)
    (hall : ∀ t ∈ l, t.confidence = "high" ∨ t.confidence = "medium") :
    ∀ m, dedupInv m → dedupInv (l.foldl dedupStep m) := by
  induction l with
  | nil => intro m hm; exact hm
  | cons t l ih =>
    intro m hm
    exact ih (fun t2 ht2 => hall t2 (List.mem_cons_of_mem _ ht2))
      (dedupStep m t) (dedupStep_inv m t hm (hall t (List.mem_cons_self t l)))

/-- The deduplication fold keeps existing high keys high. -/
theorem dedupFold_preserves_high (l : List TypoFlag)
    (hall : ∀ t ∈ l, t.confidence = "high" ∨ t.confidence = "medium") :
    ∀ m k, dedupInv m → keyHighIn m k → keyHighIn (l.foldl dedupStep m) k := by
  induction l with
  | nil => intro m k _ h; exact h
  | cons t l ih =>
    intro m k hm h
    exact ih (fun t2 ht2 => hall t2 (List.mem_cons_of_mem _ ht2)) (dedupStep m t) k
      (dedupStep_inv m t hm (hall t (List.mem_cons_self t l)))
      (dedupStep_preserves_high m t k hm h)

/-- After folding, every high-confidence input flag has a high entry at its
key. -/
theorem dedupFold_high (l : List TypoFlag)
    (hall : ∀ t ∈ l, t.confidence = "high" ∨ t.confidence = "medium") :
    ∀ m, dedupInv m → ∀ t0 ∈ l, t0.confidence = "high" →
      keyHighIn (l.foldl dedupStep m) (typoKey t0) := by
  induction l with
  | nil => intro m _ t0 ht0; simp at ht0
  | cons t l ih =>
    intro m hm t0 ht0 hhigh
    have hall2 : ∀ t2 ∈ l, t2.confidence = "high" ∨ t2.confidence = "medium" :=
      fun t2 ht2 => hall t2 (List.mem_cons_of_mem _ ht2)
    have hinv2 := dedupStep_inv m t hm (hall t (List.mem_cons_self t l))
    rcases List.mem_cons.mp ht0 with h | h
    · subst h
      exact dedupFold_preserves_high l hall2 (dedupStep m t0) (typoKey t0) hinv2
        (dedupStep_establish m t0 hm hhigh)
    · exact ih hall2 (dedupStep m t) hinv2 t0 h hhigh

/-- A deduplicated candidate list keeps, for every high-confidence raw flag,
a high-confidence flag with the same key. -/
theorem dedupTypos_high (l : List TypoFlag)
    (hall : ∀ t ∈ l, t.confidence = "high" ∨ t.confidence = "medium")
    (t0 : TypoFlag) (ht0 : t0 ∈ l) (hhigh : t0.confidence = "high") :
    ∃ t ∈ dedupTypos l, t.confidence = "high" ∧ typoKey t = typoKey t0 := by
  have hinv0 : dedupInv ([] : List (String × TypoFlag)) := by
    refine ⟨List.nodup_nil, ?_, ?_⟩ <;> intro p hp <;> simp at hp
  obtain ⟨p, hp, hpk, hph⟩ := dedupFold_high l hall [] hinv0 t0 ht0 hhigh
  have hinv := dedupFold_inv l hall [] hinv0
  refine ⟨p.2, List.mem_map_of_mem Prod.snd hp, hph, ?_⟩
  rw [← hinv.2.1 p hp, hpk]

/-- Dissection of the raw candidate list: a high-confidence candidate comes
from the high rule, whose condition therefore holds for its fields. -/
theorem typoCandidates_high (content filePath : String) (allFiles : List CodeFile)
    (t : TypoFlag) (h : t ∈ typoCandidates content filePath allFiles)
    (hc : t.confidence = "high") :
    t.original ∈ exportNamesOf content ∧
    ∃ a ∈ findImportAttempts filePath allFiles, t.suggested ∈ a.importedNames ∧
      stringSimilarity t.original t.suggested < 1/2 ∧
      stringSimilarity t.suggested (String.mk (baseNameNoExt filePath)) > 7/10 := by
  unfold typoCandidates at h
  dsimp only at h
  rw [List.mem_flatMap] at h
  obtain ⟨exp, hexp, h⟩ := h
  rw [List.mem_flatMap] at h
  obtain ⟨attempt, hatt, h⟩ := h
  obtain ⟨hlen, h⟩ := mem_ite_list h
  rw [List.mem_flatMap] at h
  obtain ⟨i, hi, h⟩ := h
  rcases List.mem_append.mp h with h | h
  · obtain ⟨hcond, h⟩ := mem_ite_list h
    rw [List.mem_singleton] at h
    subst h
    exact ⟨List.mem_map_of_mem _ hexp, attempt, hatt, hi,
      (simBelowHalf_iff _ _).mp hcond.1, (simAboveSevenTenths_iff _ _).mp hcond.2⟩
  · obtain ⟨hpre, h⟩ := mem_ite_list h
    obtain ⟨hsim, h⟩ := mem_ite_list h
    rw [List.mem_singleton] at h
    subst h
    have hmed : (mkMediumFlag exp i (String.mk (baseNameNoExt filePath))
        attempt).confidence = "medium" := rfl
    rw [hmed] at hc
    exact absurd hc (by decide)

/-- Every raw candidate is high- or medium-confidence. -/
theorem typoCandidates_conf (content filePath : String) (allFiles : List CodeFile)
    (t : TypoFlag) (h : t ∈ typoCandidates content filePath allFiles) :
    t.confidence = "high" ∨ t.confidence = "medium" := by
  unfold typoCandidates at h
  dsimp only at h
  rw [List.mem_flatMap] at h
  obtain ⟨exp, _, h⟩ := h
  rw [List.mem_flatMap] at h
  obtain ⟨attempt, _, h⟩ := h
  obtain ⟨hlen, h⟩ := mem_ite_list h
  rw [List.mem_flatMap] at h
  obtain ⟨i, _, h⟩ := h
  rcases List.mem_append.mp h with h | h
  · obtain ⟨hcond, h⟩ := mem_ite_list h
    rw [List.mem_singleton] at h
    subst h
    exact Or.inl rfl
  · obtain ⟨hpre, h⟩ := mem_ite_list h
    obtain ⟨hsim, h⟩ := mem_ite_list h
    rw [List.mem_singleton] at h
    subst h
    exact Or.inr rfl

/-- A pair satisfying the rule produces its high-confidence raw flag. -/
theorem rule_gives_candidate (content filePath : String) (allFiles : List CodeFile)
    (exp : ExportDecl) (hexp : exp ∈ exportDeclsOf content)
    (a : ImportAttempt) (ha : a ∈ findImportAttempts filePath allFiles)
    (i : String) (hi : i ∈ a.importedNames)
    (h1 : stringSimilarity exp.name i < 1/2)
    (h2 : stringSimilarity i (String.mk (baseNameNoExt filePath)) > 7/10) :
    mkHighFlag exp i (String.mk (baseNameNoExt filePath)) a ∈
      typoCandidates content filePath allFiles := by
  unfold typoCandidates
  dsimp only
  rw [List.mem_flatMap]
  refine ⟨exp, hexp, ?_⟩
  rw [List.mem_flatMap]
  refine ⟨a, ha, ?_⟩
  rw [if_pos (List.length_pos_of_mem hi)]
  rw [List.mem_flatMap]
  refine ⟨i, hi, ?_⟩
  apply List.mem_append_left
  rw [if_pos ⟨(simBelowHalf_iff _ _).mpr h1, (simAboveSevenTenths_iff _ _).mpr h2⟩]
  exact List.mem_singleton.mpr rfl

/-- C9 (amended): every high-confidence flag returned by
`detectExportNameTypos` satisfies the decision rule
(`similarity(export, import) < 0.5` and `similarity(import, filename) >
0.7`); conversely every pair `(e, i)` satisfying the rule yields a returned
high-confidence flag whose key `original + suggested` equals `e + i` — but,
because deduplication is keyed by that string concatenation, the flag kept
for the key need not be the pair `(e, i)` itself. -/
theorem c9_naming_rule_amended (content filePath : String)
    (allFiles : List CodeFile) :
    (∀ t ∈ detectExportNameTypos content filePath allFiles,
      t.confidence = "high" →
      t.original ∈ exportNamesOf content ∧
      ∃ a ∈ findImportAttempts filePath allFiles, t.suggested ∈ a.importedNames ∧
        stringSimilarity t.original t.suggested < 1/2 ∧
        stringSimilarity t.suggested (String.mk (baseNameNoExt filePath)) > 7/10) ∧
    (∀ e i : String, e ∈ exportNamesOf content →
      (∃ a ∈ findImportAttempts filePath allFiles, i ∈ a.importedNames) →
      stringSimilarity e i < 1/2 →
      stringSimilarity i (String.mk (baseNameNoExt filePath)) > 7/10 →
      ∃ t ∈ detectExportNameTypos content filePath allFiles,
        t.confidence = "high" ∧ t.original ++ t.suggested = e ++ i) := by
  constructor
  · intro t ht hc
    unfold detectExportNameTypos at ht
    split_ifs at ht with hemp
    · simp at ht
    · exact typoCandidates_high content filePath allFiles t
        (dedupTypos_sub _ t ht) hc
  · intro e i he hex h1 h2
    rcases List.mem_map.mp he with ⟨exp, hexp, rfl⟩
    obtain ⟨a, ha, hi⟩ := hex
    have hc := rule_gives_candidate content filePath allFiles exp hexp a ha i hi h1 h2
    have hall := typoCandidates_conf content filePath allFiles
    obtain ⟨t, htmem, hth, htk⟩ := dedupTypos_high _ hall _ hc (by rfl)
    refine ⟨t, ?_, hth, ?_⟩
    · unfold detectExportNameTypos
      rw [if_neg (List.ne_nil_of_mem hexp)]
      exact htmem
    · have : typoKey (mkHighFlag exp i (String.mk (baseNameNoExt filePath)) a) =
          exp.name ++ i := rfl
      rw [typoKey] at htk
      rw [htk, this]

/-- C9 witness for the amended claim: the file `helperUtils.js` exporting
`x`, with `helperUtils` imported elsewhere — the rule fires and the flag
`x → helperUtils` is returned. -/
theorem c9_naming_rule_amended_witness :
    ("x" ∈ exportNamesOf c9UtilContent ∧
     (∃ a ∈ findImportAttempts "helperUtils.js" c9Files,
        "helperUtils" ∈ a.importedNames) ∧
     stringSimilarity "x" "helperUtils" < 1/2 ∧
     stringSimilarity "helperUtils"
        (String.mk (baseNameNoExt "helperUtils.js")) > 7/10) ∧
    ∃ t ∈ detectExportNameTypos c9UtilContent "helperUtils.js" c9Files,
      t.confidence = "high" ∧ t.original ++ t.suggested = "x" ++ "helperUtils" :=
  ⟨⟨by decide, by decide, (simBelowHalf_iff "x" "helperUtils").mp (by decide),
    (simAboveSevenTenths_iff "helperUtils"
      (String.mk (baseNameNoExt "helperUtils.js"))).mp (by decide)⟩,
   (c9_naming_rule_amended c9UtilContent "helperUtils.js" c9Files).2 "x"
     "helperUtils" (by decide) (by decide)
     ((simBelowHalf_iff "x" "helperUtils").mp (by decide))
     ((simAboveSevenTenths_iff "helperUtils"
        (String.mk (baseNameNoExt "helperUtils.js"))).mp (by decide))⟩

set_option maxRecDepth 100000 in
/-- C9 counterexample: the pair `(xh, elperUtils)` satisfies the decision
rule — `xh` is exported, `elperUtils` is imported from the file, the two
similarities pass their thresholds — yet no flag `xh → elperUtils` is
returned: its deduplication key `"xhelperUtils"` collides with the earlier
flag `x → helperUtils`, which is kept instead. -/
theorem c9_naming_rule_counterexample :
    "xh" ∈ exportNamesOf c9UtilContent ∧
    (∃ a ∈ findImportAttempts "helperUtils.js" c9Files,
       "elperUtils" ∈ a.importedNames) ∧
    stringSimilarity "xh" "elperUtils" < 1/2 ∧
    stringSimilarity "elperUtils"
       (String.mk (baseNameNoExt "helperUtils.js")) > 7/10 ∧
    ∀ t ∈ detectExportNameTypos c9UtilContent "helperUtils.js" c9Files,
      ¬(t.original = "xh" ∧ t.suggested = "elperUtils") := by
  refine ⟨by decide, by decide,
    (simBelowHalf_iff "xh" "elperUtils").mp (by decide),
    (simAboveSevenTenths_iff "elperUtils"
      (String.mk (baseNameNoExt "helperUtils.js"))).mp (by decide),
    by decide⟩

/-! ## Claim C3 — file symbolCount versus the symbols map -/

/-- `mapSet` with a key absent from the map appends the entry. -/
theorem mapSet_of_forall_ne {α : Type} (m : List (String × α)) (k : String)
    (v : α) (h : ∀ kv ∈ m, kv.1 ≠ k) : mapSet m k v = m ++ [(k, v)] := by
  unfold mapSet
  have hany : m.any (fun kv => kv.1 = k) = false := by
    rw [List.any_eq_false]
    intro kv hkv
    simpa using h kv hkv
  rw [hany]
  simp

/-- `trackFix` leaves the symbols map unchanged. -/
theorem trackFix_symbols (g : Graph) (file : CodeFile)
    (fx : Option FixSource) : (trackFix g file fx).symbols = g.symbols := by
  unfold trackFix
  cases fx with
  | none => rfl
  | some f =>
    dsimp only
    split_ifs <;> rfl

/-- `trackFix` leaves the files map unchanged. -/
theorem trackFix_files (g : Graph) (file : CodeFile)
    (fx : Option FixSource) : (trackFix g file fx).files = g.files := by
  unfold trackFix
  cases fx with
  | none => rfl
  | some f =>
    dsimp only
    split_ifs <;> rfl

/-- `buildEdges` leaves the symbols map unchanged. -/
theorem buildEdges_symbols (syms : List Sym) (p : String) (g : Graph) :
    (buildEdges syms p g).symbols = g.symbols := rfl

/-- `buildEdges` leaves the files map unchanged. -/
theorem buildEdges_files (syms : List Sym) (p : String) (g : Graph) :
    (buildEdges syms p g).files = g.files := rfl

/-- The parser dispatch yields the same symbols whatever semantic-fix
result is passed (the latter only feeds the tracked fixes). -/
theorem dispatchParse_fst (jsParse tsParse : String → String → ParseResult)
    (file : CodeFile) (sfr : Option SemanticFixResult) :
    (dispatchParse jsParse tsParse file sfr).1
      = parsedSyms jsParse tsParse file := by
  unfold parsedSyms dispatchParse
  dsimp only
  split_ifs <;> rfl

/-- Inserting symbols with fresh, pairwise-distinct keys appends them. -/
theorem symFold_spec (p : String) (syms : List Sym) :
    ∀ (g : Graph),
    (∀ kv ∈ g.symbols, ∀ s ∈ syms, kv.1 ≠ p ++ "::" ++ s.name) →
    ((syms.map (fun s => p ++ "::" ++ s.name)).Nodup) →
    syms.foldl (fun g2 s =>
        { g2 with symbols := mapSet g2.symbols (p ++ "::" ++ s.name) (toGraphSymbol s p) }) g
      = { g with symbols := g.symbols
            ++ syms.map (fun s => (p ++ "::" ++ s.name, toGraphSymbol s p)) } := by
  induction syms with
  | nil => intro g _ _; simp
  | cons s syms ih =>
    intro g hfresh hnd
    rw [List.map_cons, List.nodup_cons] at hnd
    have hkey : ∀ kv ∈ g.symbols, kv.1 ≠ p ++ "::" ++ s.name :=
      fun kv hkv => hfresh kv hkv s (List.mem_cons_self s syms)
    rw [List.foldl_cons]
    rw [mapSet_of_forall_ne _ _ _ hkey]
    rw [ih _ ?hf hnd.2]
    case hf =>
      intro kv hkv s2 hs2
      rcases List.mem_append.mp hkv with h | h
      · exact hfresh kv h s2 (List.mem_cons_of_mem _ hs2)
      · rcases List.mem_singleton.mp h with rfl
        intro he
        have he2 : p ++ "::" ++ s.name = p ++ "::" ++ s2.name := he
        refine hnd.1 ?_
        rw [he2]
        exact List.mem_map_of_mem _ hs2
    · simp

/-- Characterization of `analyzeFile` on a fresh file with distinct
symbol keys: the new symbols and the new file record are appended. -/
theorem analyzeFile_spec (jsParse tsParse : String → String → ParseResult)
    (g : Graph) (file : CodeFile) (sfr : Option SemanticFixResult)
    (hffresh : ∀ pr ∈ g.files, pr.1 ≠ file.path)
    (hsfresh : ∀ kv ∈ g.symbols, ∀ s ∈ parsedSyms jsParse tsParse file,
      kv.1 ≠ file.path ++ "::" ++ s.name)
    (hnd : ((parsedSyms jsParse tsParse file).map
      (fun s => file.path ++ "::" ++ s.name)).Nodup) :
    (analyzeFile jsParse tsParse g file sfr).symbols
      = g.symbols ++ (parsedSyms jsParse tsParse file).map
          (fun s => (file.path ++ "::" ++ s.name, toGraphSymbol s file.path)) ∧
    ∃ frec : FileRecord,
      (analyzeFile jsParse tsParse g file sfr).files
          = g.files ++ [(file.path, frec)] ∧
      frec.symbolCount = (parsedSyms jsParse tsParse file).length := by
  have hd := dispatchParse_fst jsParse tsParse file sfr
  have hbsym : ∀ kv ∈ (trackFix g file
        (dispatchParse jsParse tsParse file sfr).2).symbols,
      ∀ s ∈ parsedSyms jsParse tsParse file,
        kv.1 ≠ file.path ++ "::" ++ s.name := by
    rw [trackFix_symbols]
    exact hsfresh
  unfold analyzeFile
  dsimp only
  rw [hd]
  set t := trackFix g file (dispatchParse jsParse tsParse file sfr).2 with ht
  set frecLit : FileRecord := ⟨file.path, detectLanguage (String.mk (lowerStr (jsExtname file.path.toList))), (parsedSyms jsParse tsParse file).length, file.content.length, (parsedSyms jsParse tsParse file).filter (fun s => s.type = "import"), (parsedSyms jsParse tsParse file).filter (fun s => s.type = "export")⟩ with hfrec
  rw [symFold_spec file.path (parsedSyms jsParse tsParse file)
    { t with files := mapSet t.files file.path frecLit } hbsym hnd]
  constructor
  · rw [buildEdges_symbols]
    dsimp only
    rw [ht, trackFix_symbols]
  · refine ⟨frecLit, ?_, ?_⟩
    · rw [buildEdges_files]
      dsimp only
      rw [ht, trackFix_files]
      exact mapSet_of_forall_ne _ _ _ hffresh
    · rw [hfrec]

/-- Unfolding lemma for the keys of a cons cell. -/
theorem allSymbolKeys_cons (jsParse tsParse : String → String → ParseResult)
    (f : CodeFile) (files : List CodeFile) :
    allSymbolKeys jsParse tsParse (f :: files)
      = (parsedSyms jsParse tsParse f).map
          (fun s => f.path ++ "::" ++ s.name)
        ++ allSymbolKeys jsParse tsParse files := by
  simp [allSymbolKeys]

/-- Invariant of the phase-2 fold: on files with distinct paths and
globally distinct symbol keys, every file record counts exactly the
graph symbols carrying its path, and every symbol has a file record. -/
theorem analyzeFold_inv (jsParse tsParse : String → String → ParseResult)
    (fixes : List (String × SemanticFixResult)) :
    ∀ (files : List CodeFile) (g : Graph),
    (files.map (fun f => f.path)).Nodup →
    (allSymbolKeys jsParse tsParse files).Nodup →
    (∀ kv ∈ g.symbols, ∀ f ∈ files, kv.2.file ≠ f.path) →
    (∀ kv ∈ g.symbols, kv.1 ∉ allSymbolKeys jsParse tsParse files) →
    (∀ pr ∈ g.files, ∀ f ∈ files, pr.1 ≠ f.path) →
    (∀ pr ∈ g.files, pr.2.symbolCount = symCount g pr.1) →
    (∀ kv ∈ g.symbols, ∃ pr ∈ g.files, pr.1 = kv.2.file) →
    (∀ pr ∈ (files.foldl (fun g2 f =>
        analyzeFile jsParse tsParse g2 f (mapLookup fixes f.path)) g).files,
      pr.2.symbolCount = symCount (files.foldl (fun g2 f =>
        analyzeFile jsParse tsParse g2 f (mapLookup fixes f.path)) g) pr.1) ∧
    (∀ kv ∈ (files.foldl (fun g2 f =>
        analyzeFile jsParse tsParse g2 f (mapLookup fixes f.path)) g).symbols,
      ∃ pr ∈ (files.foldl (fun g2 f =>
        analyzeFile jsParse tsParse g2 f (mapLookup fixes f.path)) g).files,
        pr.1 = kv.2.file) := by
  intro files
  induction files with
  | nil =>
    intro g _ _ _ _ _ hct hcv
    exact ⟨hct, hcv⟩
  | cons f rest ih =>
    intro g hp hk hsf hsk hff hct hcv
    rw [List.map_cons, List.nodup_cons] at hp
    rw [allSymbolKeys_cons] at hk
    rw [List.nodup_append] at hk
    obtain ⟨hkF, hkR, hkD⟩ := hk
    have hstep := analyzeFile_spec jsParse tsParse g f (mapLookup fixes f.path)
      (fun pr hpr => hff pr hpr f (List.mem_cons_self f rest))
      (fun kv hkv s hs => by
        intro he
        exact hsk kv hkv (by
          rw [allSymbolKeys_cons]
          exact List.mem_append_left _ (he ▸ List.mem_map_of_mem _ hs)))
      hkF
    obtain ⟨hsy, frec, hfi, hcnt⟩ := hstep
    rw [List.foldl_cons]
    set g1 := analyzeFile jsParse tsParse g f (mapLookup fixes f.path) with hg1
    apply ih g1 hp.2 hkR
    · intro kv hkv f2 hf2
      rw [hsy] at hkv
      rcases List.mem_append.mp hkv with h | h
      · exact hsf kv h f2 (List.mem_cons_of_mem _ hf2)
      · obtain ⟨s, _, rfl⟩ := List.mem_map.mp h
        show f.path ≠ f2.path
        intro he
        exact hp.1 (he ▸ List.mem_map_of_mem _ hf2)
    · intro kv hkv
      rw [hsy] at hkv
      rcases List.mem_append.mp hkv with h | h
      · intro hmem
        exact hsk kv h (by
          rw [allSymbolKeys_cons]
          exact List.mem_append_right _ hmem)
      · obtain ⟨s, hs, rfl⟩ := List.mem_map.mp h
        exact hkD (List.mem_map_of_mem _ hs)
    · intro pr hpr f2 hf2
      rw [hfi] at hpr
      rcases List.mem_append.mp hpr with h | h
      · exact hff pr h f2 (List.mem_cons_of_mem _ hf2)
      · rcases List.mem_singleton.mp h with rfl
        show f.path ≠ f2.path
        intro he
        exact hp.1 (he ▸ List.mem_map_of_mem _ hf2)
    · intro pr hpr
      rw [hfi] at hpr
      rcases List.mem_append.mp hpr with h | h
      · have hne : pr.1 ≠ f.path := hff pr h f (List.mem_cons_self f rest)
        have hb : (List.filter (fun kv => kv.2.file = pr.1)
            ((parsedSyms jsParse tsParse f).map
              (fun s => (f.path ++ "::" ++ s.name, toGraphSymbol s f.path))))
            = [] := by
          rw [List.filter_eq_nil]
          intro kv hkv
          obtain ⟨s, _, rfl⟩ := List.mem_map.mp hkv
          simpa [toGraphSymbol] using fun hh => hne hh.symm
        rw [hct pr h]
        show symCount g pr.1 = symCount g1 pr.1
        rw [hg1]
        unfold symCount
        rw [hsy, List.filter_append, hb]
        simp
      · rcases List.mem_singleton.mp h with rfl
        show frec.symbolCount = symCount g1 f.path
        rw [hcnt, hg1]
        unfold symCount
        rw [hsy, List.filter_append]
        have h0 : (List.filter (fun kv => kv.2.file = f.path) g.symbols) = [] := by
          rw [List.filter_eq_nil]
          intro kv hkv
          simpa using hsf kv hkv f (List.mem_cons_self f rest)
        have hall : (List.filter (fun kv => kv.2.file = f.path)
            ((parsedSyms jsParse tsParse f).map
              (fun s => (f.path ++ "::" ++ s.name, toGraphSymbol s f.path))))
            = (parsedSyms jsParse tsParse f).map
              (fun s => (f.path ++ "::" ++ s.name, toGraphSymbol s f.path)) := by
          rw [List.filter_eq_self]
          intro kv hkv
          obtain ⟨s, _, rfl⟩ := List.mem_map.mp hkv
          simp [toGraphSymbol]
        rw [h0, hall]
        simp
    · intro kv hkv
      rw [hsy] at hkv
      rcases List.mem_append.mp hkv with h | h
      · obtain ⟨pr, hpr, hpe⟩ := hcv kv h
        exact ⟨pr, by rw [hfi]; exact List.mem_append_left _ hpr, hpe⟩
      · obtain ⟨s, hs, rfl⟩ := List.mem_map.mp h
        have hmem : (f.path, frec) ∈ g1.files := by
          rw [hfi]
          exact List.mem_append_right _ (List.mem_singleton.mpr rfl)
        exact ⟨(f.path, frec), hmem, by simp [toGraphSymbol]⟩

/-- Phase 1 rewrites contents but keeps the file paths in order. -/
theorem phase1Go_paths :
    ∀ (todo done : List CodeFile) (fixes : List (String × SemanticFixResult)),
    ((phase1Go done fixes todo).1).map (fun f => f.path)
      = done.map (fun f => f.path) ++ todo.map (fun f => f.path) := by
  intro todo
  induction todo with
  | nil => intro done fixes; simp [phase1Go]
  | cons f rest ih =>
    intro done fixes
    unfold phase1Go
    dsimp only
    split_ifs with hfx
    · rw [ih]
      simp
    · rw [ih]
      simp

/-- C3 counterexample: on a single `.c` file whose two lines both
declare `function f(`, the generic extractor yields two symbols named
`f`; the file record counts them both (`symbolCount = 2`), but the
symbols map collapses them under the single key `a.c::f`, so only one
graph symbol carries that file.  The external JS/TS parsers are instantiated
with a stub; they are never consulted for a `.c` file. -/
theorem c3_symbol_count_counterexample :
    ((buildSymbolGraph trivialParse trivialParse c3Files).files.map
      (fun pr => (pr.1, pr.2.symbolCount))) = [("a.c", 2)] ∧
    symCount (buildSymbolGraph trivialParse trivialParse c3Files) "a.c" = 1 :=
  ⟨rfl, rfl⟩

/-- C3 (amended): if the analyzed files have pairwise distinct paths
and the `path::name` keys of the symbols parsed from the (semantically
fixed) files are pairwise distinct, then in the built graph every file
record's `symbolCount` equals the number of graph symbols whose `file`
is that record's path, and every graph symbol has a file record for its
`file` — so the spec's consistency invariant holds exactly when no two
parsed symbols of a file share a name (and no two files share a path);
duplicate names collapse in the map and break it. -/
theorem c3_symbol_count_amended (jsParse tsParse : String → String → ParseResult)
    (codeFiles : List CodeFile)
    (hpaths : (codeFiles.map (fun f => f.path)).Nodup)
    (hkeys : (allSymbolKeys jsParse tsParse (phase1Go [] [] codeFiles).1).Nodup) :
    (∀ pr ∈ (buildSymbolGraph jsParse tsParse codeFiles).files,
      pr.2.symbolCount
        = symCount (buildSymbolGraph jsParse tsParse codeFiles) pr.1) ∧
    (∀ kv ∈ (buildSymbolGraph jsParse tsParse codeFiles).symbols,
      ∃ pr ∈ (buildSymbolGraph jsParse tsParse codeFiles).files,
        pr.1 = kv.2.file) := by
  have hp1 : ((phase1Go [] [] codeFiles).1.map (fun f => f.path)).Nodup := by
    rw [phase1Go_paths]
    simpa using hpaths
  unfold buildSymbolGraph
  dsimp only
  exact analyzeFold_inv jsParse tsParse (phase1Go [] [] codeFiles).2
    (phase1Go [] [] codeFiles).1 _ hp1 hkeys
    (by intro kv h; exact absurd h (List.not_mem_nil kv))
    (by intro kv h; exact absurd h (List.not_mem_nil kv))
    (by intro pr h; exact absurd h (List.not_mem_nil pr))
    (by intro pr h; exact absurd h (List.not_mem_nil pr))
    (by intro kv h; exact absurd h (List.not_mem_nil kv))

/-- C3 witness: a file with two distinctly named functions satisfies
the hypotheses, and the built graph is consistent. -/
theorem c3_symbol_count_amended_witness :
    ((c3GoodFiles.map (fun f => f.path)).Nodup ∧
      (allSymbolKeys trivialParse trivialParse
        (phase1Go [] [] c3GoodFiles).1).Nodup) ∧
    (∀ pr ∈ (buildSymbolGraph trivialParse trivialParse c3GoodFiles).files,
      pr.2.symbolCount
        = symCount (buildSymbolGraph trivialParse trivialParse c3GoodFiles) pr.1) ∧
    (∀ kv ∈ (buildSymbolGraph trivialParse trivialParse c3GoodFiles).symbols,
      ∃ pr ∈ (buildSymbolGraph trivialParse trivialParse c3GoodFiles).files,
        pr.1 = kv.2.file) :=
  ⟨⟨by decide, by decide⟩,
   c3_symbol_count_amended trivialParse trivialParse c3GoodFiles
     (by decide) (by decide)⟩

/-! ## Claim C4 — compaction caps (refuted as stated, amended) -/

set_option maxRecDepth 100000 in
/-- C4 counterexample: the caps are claimed for EVERY input context and
budget, but when the rendered estimate fits the budget the context is
returned unchanged. A context of six relevant files (with the summary the
code itself would compute for it) under a 100000-token budget comes back
with six files, breaching the five-file cap. -/
theorem c4_compaction_caps_counterexample :
    c4Ctx.summary
      = generateContextSummary c4Ctx.relevantFiles c4Ctx.relevantSymbols ∧
    estimateTokens (formatContextForAI c4Ctx) ≤ 100000 ∧
    createCompactContext c4Ctx 100000 = c4Ctx ∧
    ¬ withinCompactionCaps (createCompactContext c4Ctx 100000) := by
  refine ⟨rfl, by decide, by decide, ?_⟩
  intro h
  have h5 : (createCompactContext c4Ctx 100000).relevantFiles.length ≤ 5 := h.1
  have h6 : (createCompactContext c4Ctx 100000).relevantFiles.length = 6 := by
    decide
  omega

/-- C4 (amended): when the rendered estimate exceeds the budget, the
compacted context obeys every fixed cap — at most 5 relevant files, 20
relevant symbols, 10 call-graph entries, 10 dependencies, no full file
contents and at most 2 snippets per file; when the estimate fits the
budget, the context is returned unchanged (so the caps are NOT enforced
on it). -/
theorem c4_compaction_caps_amended (ctx : Context) (maxTokens : Nat) :
    (estimateTokens (formatContextForAI ctx) ≤ maxTokens →
      createCompactContext ctx maxTokens = ctx) ∧
    (maxTokens < estimateTokens (formatContextForAI ctx) →
      withinCompactionCaps (createCompactContext ctx maxTokens)) := by
  unfold createCompactContext
  dsimp only
  split_ifs with hle
  · exact ⟨fun _ => rfl, fun hlt => absurd hle (Nat.not_le.mpr hlt)⟩
  · refine ⟨fun h => absurd h hle, fun _ => ?_⟩
    refine ⟨?_, ?_, ?_, ?_, ?_⟩
    · rw [List.length_map, List.length_take]
      exact min_le_left _ _
    · rw [List.length_take]
      exact min_le_left _ _
    · rw [List.length_take]
      exact min_le_left _ _
    · rw [List.length_take]
      exact min_le_left _ _
    · intro f hf
      obtain ⟨g, _, rfl⟩ := List.mem_map.mp hf
      refine ⟨rfl, ?_⟩
      cases hgs : g.snippet with
      | none => simp [compactFile, hgs]
      | some sns =>
        simp only [compactFile, hgs, Option.map_some']
        rw [List.length_take]
        exact min_le_left _ _

set_option maxRecDepth 100000 in
/-- C4 witness: a zero budget forces compaction of the six-file context,
and the result satisfies all the caps. -/
theorem c4_compaction_caps_amended_witness :
    0 < estimateTokens (formatContextForAI c4Ctx) ∧
    withinCompactionCaps (createCompactContext c4Ctx 0) :=
  ⟨by decide, (c4_compaction_caps_amended c4Ctx 0).2 (by decide)⟩

end GhostCoder